import Mathlib

/-!
# Verification of the remap-css declaration/color remapping core

Shallow embedding of `src/index.js` of the `remap-css` package: the color
codec (`normalizeHexColor`, `alphaToHex`, `hexFromColorFunction`,
`normalizeColor`, `isColor`), the declaration normalizer (`normalizeDecl`,
`parseDecl`, `stringifyDecl`), the mapping compiler (`addMapping`,
`prepareMappings`) and the per-declaration resolution engine
(`getNewColorValue`, `assignNewColor`, `replaceColorsInValue`, the
declaration branch of `plugin`).

Pure JavaScript strings are modelled as Lean `String`s (all relevant data is
ASCII); JavaScript numbers are modelled as `ℚ` with `NaN`/`undefined` made
explicit; JavaScript exceptions are modelled with `Option` (`none` = throw).
External npm dependencies used by the core (`postcss-value-parser`,
`color-convert`, `css-shorthand-properties`) are modelled from their
documented behaviour; each such definition carries a doc comment saying so.
-/

set_option maxRecDepth 8000

/-! ## JavaScript string primitives -/

/-- The `String.prototype.toLowerCase`, restricted to ASCII (all data in this
development is ASCII). -/
def jsLower (s : String) : String := ⟨s.data.map Char.toLower⟩

/-- The ASCII part of JavaScript's `\s` character class. -/
def isWsChar (c : Char) : Bool :=
  c == ' ' || c == '\t' || c == '\n' || c == '\r' || c == Char.ofNat 11 || c == Char.ofNat 12

/-- The `String.prototype.trim`. -/
def jsTrim (s : String) : String :=
  ⟨((s.data.dropWhile isWsChar).reverse.dropWhile isWsChar).reverse⟩

/-- The `String.prototype.split` with a single-character separator
(`"".split(c) = [""]`, separators dropped, empty segments kept). -/
def splitCharList (sep : Char) : List Char → List (List Char)
  | [] => [[]]
  | c :: rest =>
    match splitCharList sep rest with
    | [] => if c = sep then [[], []] else [[c]]
    | h :: t => if c = sep then [] :: h :: t else (c :: h) :: t

def jsSplitChar (sep : Char) (s : String) : List String :=
  (splitCharList sep s.data).map String.mk

/-- The `Array.prototype.join`. -/
def jsJoin (sep : String) (l : List String) : String := String.intercalate sep l

/-- The `String.prototype.startsWith`. -/
def jsStarts (s pre : String) : Bool := pre.data.isPrefixOf s.data

/-- The `String.prototype.substring(n)` (drop the first `n` code units). -/
def jsDropN (s : String) (n : Nat) : String := ⟨s.data.drop n⟩

/-- Substring membership (`String.prototype.includes`). -/
def listHasInfix (sub : List Char) : List Char → Bool
  | [] => sub.isEmpty
  | l@(_ :: rest) => sub.isPrefixOf l || listHasInfix sub rest

def containsSub (s sub : String) : Bool := listHasInfix sub.data s.data

/-- Lexicographic (UTF-16 code-unit) string order used by the default
`Array.prototype.sort` comparator; our data is in the BMP so code points
order identically. -/
def listLe : List Char → List Char → Bool
  | [], _ => true
  | _ :: _, [] => false
  | a :: as', b :: bs' =>
    if a = b then listLe as' bs' else decide (a.val < b.val)

def strLe (a b : String) : Bool := listLe a.data b.data

/-- Insertion sort with the JavaScript default comparator. -/
def insertSorted (x : String) : List String → List String
  | [] => [x]
  | y :: r => if strLe x y then x :: y :: r else y :: insertSorted x r

def jsSortStrings : List String → List String
  | [] => []
  | x :: r => insertSorted x (jsSortStrings r)

/-! ## JavaScript-object-style string maps (last-write-wins, insertion order) -/

abbrev SMap (α : Type) := List (String × α)

def smapLookup {α : Type} (m : SMap α) (k : String) : Option α :=
  (m.find? (fun p => p.1 == k)).map (·.2)

def smapHas {α : Type} (m : SMap α) (k : String) : Bool :=
  m.any (fun p => p.1 == k)

/-- Property assignment `m[k] = v`: overwrite in place, or append. -/
def smapInsert {α : Type} (m : SMap α) (k : String) (v : α) : SMap α :=
  if smapHas m k then m.map (fun p => if p.1 == k then (k, v) else p) else m ++ [(k, v)]

/-! ## Hex digits and JavaScript number formatting -/

def hexDigitChars : List Char := "0123456789abcdef".data

def hexDigit (n : Nat) : Char := hexDigitChars.getD n 'x'

/-- Value of a hex digit, accepting both cases (the `/i` regex flag /
`parseInt(_, 16)`). -/
def hexVal (c : Char) : Option Nat :=
  if '0' ≤ c ∧ c ≤ '9' then some (c.toNat - 48)
  else if 'a' ≤ c ∧ c ≤ 'f' then some (c.toNat - 87)
  else if 'A' ≤ c ∧ c ≤ 'F' then some (c.toNat - 55)
  else none

def isHexCI (c : Char) : Bool := (hexVal c).isSome

/-- Lowercase-only hex digit class `[0-9a-f]`. -/
def isHexLower (c : Char) : Bool :=
  ('0' ≤ c ∧ c ≤ '9') || ('a' ≤ c ∧ c ≤ 'f')

def isDigitChar (c : Char) : Bool := '0' ≤ c ∧ c ≤ '9'

/-- Fuel-driven base-16 digit emitter: models `Number.prototype.toString(16)`
for natural numbers. -/
def toHexCore : Nat → Nat → List Char → List Char
  | 0, _, acc => acc
  | fuel + 1, n, acc =>
    let acc' := hexDigit (n % 16) :: acc
    if n / 16 = 0 then acc' else toHexCore fuel (n / 16) acc'

def toHexStr (n : Nat) : String := ⟨toHexCore (n + 1) n []⟩

/-- The `String.prototype.padStart(2, "0")`. -/
def padStart2 (s : String) : String :=
  if s.data.length < 2 then ⟨List.replicate (2 - s.data.length) '0' ++ s.data⟩ else s

/-- The `n.toString(16).padStart(2, "0")`. -/
def jsHexPad2 (n : Nat) : String := padStart2 (toHexStr n)

/-- Two fixed hex digits of a byte (equal to `jsHexPad2` below 256). -/
def hex2 (n : Nat) : List Char := [hexDigit (n / 16), hexDigit (n % 16)]

/-! ## JavaScript numbers: `Number(string)` and friends

JavaScript numbers are modelled as explicit integer fractions (`JQ`) whose
operations are plain integer arithmetic (and hence compute inside the Lean
kernel); `jqVal` interprets a fraction in `ℚ`. All fractions produced by the
modelled parsers have positive denominators, for which the comparison and
floor operations below agree with the rational order (proved where used).
`NaN` and `undefined` are made explicit by `NumVal`. -/

structure JQ where
  n : Int
  d : Int
  deriving DecidableEq, Repr

def jqVal (q : JQ) : ℚ := (q.n : ℚ) / (q.d : ℚ)

def jqOfInt (n : Int) : JQ := ⟨n, 1⟩

def jqAdd (a b : JQ) : JQ := ⟨a.n * b.d + b.n * a.d, a.d * b.d⟩

def jqSub (a b : JQ) : JQ := ⟨a.n * b.d - b.n * a.d, a.d * b.d⟩

def jqMul (a b : JQ) : JQ := ⟨a.n * b.n, a.d * b.d⟩

def jqNeg (a : JQ) : JQ := ⟨-a.n, a.d⟩

def jqDiv (a b : JQ) : JQ := ⟨a.n * b.d, a.d * b.n⟩

/-- The `a < b`, valid for positive denominators. -/
def jqLt (a b : JQ) : Bool := a.n * b.d < b.n * a.d

/-- Truthiness test `x === 0` / `!x` for a finite number. -/
def jqIsZero (a : JQ) : Bool := a.n == 0

/-- The `Math.floor`, valid for positive denominators (`Int.fdiv` rounds toward
negative infinity). -/
def jqFloor (a : JQ) : Int := Int.fdiv a.n a.d

/-- A JavaScript numeric slot: a missing argument, `NaN`, or a (finite)
number. -/
inductive NumVal where
  | undef : NumVal
  | nan : NumVal
  | val (q : JQ) : NumVal
  deriving DecidableEq, Repr

def digitsVal (l : List Char) : Int :=
  l.foldl (fun acc c => acc * 10 + ((c.toNat : Int) - 48)) 0

/-- Decimal parser behind `Number(string)`: optional sign, integer part,
optional fraction (the inputs in this code base use no exponents or
hex/binary literals, so that subset is modelled). `none` is `NaN`. -/
def parseDecimalQ (l : List Char) : Option JQ :=
  let (sign, l1) : Int × List Char :=
    match l with
    | '-' :: r => (-1, r)
    | '+' :: r => (1, r)
    | _ => (1, l)
  let intPart := l1.takeWhile isDigitChar
  let rest := l1.drop intPart.length
  match rest with
  | [] => if intPart.isEmpty then none else some ⟨sign * digitsVal intPart, 1⟩
  | '.' :: fr =>
    let fd := fr.takeWhile isDigitChar
    let rest2 := fr.drop fd.length
    if ¬rest2.isEmpty then none
    else if intPart.isEmpty ∧ fd.isEmpty then none
    else
      some ⟨sign * (digitsVal intPart * 10 ^ fd.length + digitsVal fd), (10 : Int) ^ fd.length⟩
  | _ => none

/-- The `Number(string)`: trims, maps the empty string to `0`, otherwise parses a
decimal; `none` stands for `NaN`. -/
def jsNumber (s : String) : Option JQ :=
  let t := jsTrim s
  if t.data.isEmpty then some (jqOfInt 0) else parseDecimalQ t.data

/-- The `Number(word)` as a `NumVal`. -/
def numOf (s : String) : NumVal :=
  match jsNumber s with
  | some q => .val q
  | none => .nan

/-! ## Color codec (`src/index.js` lines 275-361) -/

/-- The `normalizeHexColor`: digit-doubling of 3/4-digit hex (default alpha
`f`/`f`), `ff` appended to 6-digit hex; anything else unchanged. -/
def normalizeHexColor (value : String) : String :=
  match value.data with
  | [h, r, g, b] => ⟨[h, r, r, g, g, b, b, 'f', 'f']⟩
  | [h, r, g, b, a] => ⟨[h, r, r, g, g, b, b, a, a]⟩
  | l => if l.length = 7 then ⟨l ++ ['f', 'f']⟩ else value

/-- The `alphaToHex`: `""` for a missing alpha, else clamp into `[0,1]`
(sequentially: `>1 → 1`, then `<0 → 0`) and emit
`Math.floor(alpha*255).toString(16).padStart(2,"0")`. A `NaN` alpha yields
the string `"NaN"`, as in JavaScript. -/
def alphaToHex (v : NumVal) : String :=
  match v with
  | .undef => ""
  | .nan => "NaN"
  | .val q =>
    let q1 := if jqLt (jqOfInt 1) q then jqOfInt 1 else q
    let q2 := if jqLt q1 (jqOfInt 0) then jqOfInt 0 else q1
    jsHexPad2 (jqFloor (jqMul q2 (jqOfInt 255))).toNat

/-- The `Math.round(x) & 0xFF` as used by the `color-convert` dependency:
JavaScript `Math.round` is `⌊x + 1/2⌋` and the mask is `mod 256` on the
two's-complement integer. -/
def roundByte (q : JQ) : Nat := (Int.emod (jqFloor (jqAdd q ⟨1, 2⟩)) 256).toNat

/-- Modelled from the `color-convert` dependency: `rgb.hex` rounds and masks
each channel, concatenates them into one integer and pads its base-16 form
to six digits, which is byte-wise hex concatenation; the call site in
`hexFromColorFunction` immediately lowercases, so the lowercased form is
modelled. -/
def rgbHexLower (r g b : JQ) : String :=
  ⟨hex2 (roundByte r) ++ hex2 (roundByte g) ++ hex2 (roundByte b)⟩

/-- Modelled from the `color-convert` dependency: `hsl.rgb` (h then s then l,
divided by 360/100/100 first), with `NaN` inputs (`none`) propagated exactly
as JavaScript arithmetic and comparisons do. -/
def hslRgbModel (h0 s0 l0 : Option JQ) : Option JQ × Option JQ × Option JQ :=
  match s0 with
  | none => (none, none, none)
  | some sv0 =>
    let s := jqDiv sv0 (jqOfInt 100)
    if jqIsZero s then
      match l0 with
      | none => (none, none, none)
      | some lv =>
        let v := jqMul (jqDiv lv (jqOfInt 100)) (jqOfInt 255)
        (some v, some v, some v)
    else
      match l0 with
      | none => (none, none, none)
      | some lv0 =>
        let l := jqDiv lv0 (jqOfInt 100)
        let t2 :=
          if jqLt l ⟨1, 2⟩ then jqMul l (jqAdd (jqOfInt 1) s)
          else jqSub (jqAdd l s) (jqMul l s)
        let t1 := jqSub (jqMul (jqOfInt 2) l) t2
        match h0 with
        | none =>
          let v := jqMul t1 (jqOfInt 255)
          (some v, some v, some v)
        | some hv0 =>
          let h := jqDiv hv0 (jqOfInt 360)
          let ch : JQ → JQ := fun i =>
            let t3a := jqAdd h (jqMul ⟨1, 3⟩ (jqNeg (jqSub i (jqOfInt 1))))
            let t3b := if jqLt t3a (jqOfInt 0) then jqAdd t3a (jqOfInt 1) else t3a
            let t3 := if jqLt (jqOfInt 1) t3b then jqSub t3b (jqOfInt 1) else t3b
            let val :=
              if jqLt (jqMul (jqOfInt 6) t3) (jqOfInt 1) then
                jqAdd t1 (jqMul (jqMul (jqSub t2 t1) (jqOfInt 6)) t3)
              else if jqLt (jqMul (jqOfInt 2) t3) (jqOfInt 1) then t2
              else if jqLt (jqMul (jqOfInt 3) t3) (jqOfInt 2) then
                jqAdd t1 (jqMul (jqMul (jqSub t2 t1) (jqSub ⟨2, 3⟩ t3)) (jqOfInt 6))
              else t1
            jqMul val (jqOfInt 255)
          (some (ch (jqOfInt 0)), some (ch (jqOfInt 1)), some (ch (jqOfInt 2)))

/-- The `NaN & 0xFF = 0` in JavaScript. -/
def roundMaskO : Option JQ → Nat
  | none => 0
  | some q => roundByte q

/-- The `colorConvert.hsl.hex(h,s,l).toLowerCase()` (modelled dependency):
`hsl.rgb` followed by `rgb.hex`. -/
def hslHexLower (h s l : Option JQ) : String :=
  let (r, g, b) := hslRgbModel h s l
  ⟨hex2 (roundMaskO r) ++ hex2 (roundMaskO g) ++ hex2 (roundMaskO b)⟩

/-! ## Value expression trees (modelled from the `postcss-value-parser`
dependency, the §6 value-tokenizer collaborator): `word`, quoted `string`,
`space`, `div` and `function` nodes; `stringify` concatenates the node texts
in order, re-adding parentheses of closed function nodes. Spaces adjacent to
divs are kept as separate space nodes, which stringifies identically. -/

mutual
inductive VNode where
  | word (v : String) : VNode
  | vstr (v : String) : VNode
  | vspace (v : String) : VNode
  | vdiv (v : String) : VNode
  | vfunc (name : String) (args : VNodes) (closed : Bool) : VNode

inductive VNodes where
  | nil : VNodes
  | cons (h : VNode) (t : VNodes) : VNodes
end

mutual
def vnodeDecEq : (a b : VNode) → Decidable (a = b)
  | .word a, .word b =>
    match String.decEq a b with
    | isTrue h => isTrue (by rw [h])
    | isFalse h => isFalse (by intro hc; cases hc; exact h rfl)
  | .vstr a, .vstr b =>
    match String.decEq a b with
    | isTrue h => isTrue (by rw [h])
    | isFalse h => isFalse (by intro hc; cases hc; exact h rfl)
  | .vspace a, .vspace b =>
    match String.decEq a b with
    | isTrue h => isTrue (by rw [h])
    | isFalse h => isFalse (by intro hc; cases hc; exact h rfl)
  | .vdiv a, .vdiv b =>
    match String.decEq a b with
    | isTrue h => isTrue (by rw [h])
    | isFalse h => isFalse (by intro hc; cases hc; exact h rfl)
  | .vfunc n1 a1 c1, .vfunc n2 a2 c2 =>
    match String.decEq n1 n2, vnodesDecEq a1 a2, Bool.decEq c1 c2 with
    | isTrue h1, isTrue h2, isTrue h3 => isTrue (by rw [h1, h2, h3])
    | isFalse h1, _, _ => isFalse (by intro hc; cases hc; exact h1 rfl)
    | _, isFalse h2, _ => isFalse (by intro hc; cases hc; exact h2 rfl)
    | _, _, isFalse h3 => isFalse (by intro hc; cases hc; exact h3 rfl)
  | .word _, .vstr _ => isFalse (by intro h; cases h)
  | .word _, .vspace _ => isFalse (by intro h; cases h)
  | .word _, .vdiv _ => isFalse (by intro h; cases h)
  | .word _, .vfunc _ _ _ => isFalse (by intro h; cases h)
  | .vstr _, .word _ => isFalse (by intro h; cases h)
  | .vstr _, .vspace _ => isFalse (by intro h; cases h)
  | .vstr _, .vdiv _ => isFalse (by intro h; cases h)
  | .vstr _, .vfunc _ _ _ => isFalse (by intro h; cases h)
  | .vspace _, .word _ => isFalse (by intro h; cases h)
  | .vspace _, .vstr _ => isFalse (by intro h; cases h)
  | .vspace _, .vdiv _ => isFalse (by intro h; cases h)
  | .vspace _, .vfunc _ _ _ => isFalse (by intro h; cases h)
  | .vdiv _, .word _ => isFalse (by intro h; cases h)
  | .vdiv _, .vstr _ => isFalse (by intro h; cases h)
  | .vdiv _, .vspace _ => isFalse (by intro h; cases h)
  | .vdiv _, .vfunc _ _ _ => isFalse (by intro h; cases h)
  | .vfunc _ _ _, .word _ => isFalse (by intro h; cases h)
  | .vfunc _ _ _, .vstr _ => isFalse (by intro h; cases h)
  | .vfunc _ _ _, .vspace _ => isFalse (by intro h; cases h)
  | .vfunc _ _ _, .vdiv _ => isFalse (by intro h; cases h)

def vnodesDecEq : (a b : VNodes) → Decidable (a = b)
  | .nil, .nil => isTrue rfl
  | .nil, .cons _ _ => isFalse (by intro h; cases h)
  | .cons _ _, .nil => isFalse (by intro h; cases h)
  | .cons h1 t1, .cons h2 t2 =>
    match vnodeDecEq h1 h2, vnodesDecEq t1 t2 with
    | isTrue e1, isTrue e2 => isTrue (by rw [e1, e2])
    | isFalse e1, _ => isFalse (by intro hc; cases hc; exact e1 rfl)
    | _, isFalse e2 => isFalse (by intro hc; cases hc; exact e2 rfl)
end

instance : DecidableEq VNode := vnodeDecEq
instance : DecidableEq VNodes := vnodesDecEq

mutual
/-- The `postcssValueParser.stringify` on one node. -/
def vnodeStr : VNode → String
  | .word v => v
  | .vstr v => v
  | .vspace v => v
  | .vdiv v => v
  | .vfunc n args closed => n ++ "(" ++ vnodesStr args ++ (if closed then ")" else "")

/-- The `postcssValueParser.stringify` on a node list. -/
def vnodesStr : VNodes → String
  | .nil => ""
  | .cons h t => vnodeStr h ++ vnodesStr t
end

/-- Characters that end a word token in the value tokenizer. -/
def isWordBreak (c : Char) : Bool :=
  isWsChar c || c == '(' || c == ')' || c == ',' || c == '/' || c == ':' ||
    c == '\'' || c == '"'

/-- Fuel-driven value tokenizer (modelled from `postcss-value-parser`): words
immediately followed by `(` open function nodes, `, / :` are div nodes,
whitespace runs are space nodes, quoted runs are string nodes. Returns the
nodes and the unconsumed remainder (only inside function parsing). -/
def vparse : Nat → List Char → Bool → VNodes × List Char
  | 0, l, _ => (.nil, l)
  | _ + 1, [], _ => (.nil, [])
  | fuel + 1, l@(c :: rest), inFunc =>
    if c = ')' then
      if inFunc then (.nil, l)
      else
        let (ns, rem) := vparse fuel rest inFunc
        (.cons (.vdiv ")") ns, rem)
    else if isWsChar c then
      let run := l.takeWhile isWsChar
      let (ns, rem) := vparse fuel (l.drop run.length) inFunc
      (.cons (.vspace ⟨run⟩) ns, rem)
    else if c = ',' ∨ c = '/' ∨ c = ':' then
      let (ns, rem) := vparse fuel rest inFunc
      (.cons (.vdiv ⟨[c]⟩) ns, rem)
    else if c = '"' ∨ c = '\'' then
      let qrun := rest.takeWhile (fun x => x ≠ c)
      let rem0 := rest.drop qrun.length
      match rem0 with
      | _ :: rem1 =>
        let (ns, rem) := vparse fuel rem1 inFunc
        (.cons (.vstr ⟨c :: qrun ++ [c]⟩) ns, rem)
      | [] =>
        (.cons (.vstr ⟨c :: qrun⟩) .nil, [])
    else
      let w := l.takeWhile (fun x => ¬isWordBreak x)
      let rem0 := l.drop w.length
      match rem0 with
      | '(' :: inner =>
        let (args, rem1) := vparse fuel inner true
        match rem1 with
        | ')' :: rem2 =>
          let (ns, rem) := vparse fuel rem2 inFunc
          (.cons (.vfunc ⟨w⟩ args true) ns, rem)
        | rem2 =>
          let (ns, rem) := vparse fuel rem2 inFunc
          (.cons (.vfunc ⟨w⟩ args false) ns, rem)
      | _ =>
        let (ns, rem) := vparse fuel rem0 inFunc
        (.cons (.word ⟨w⟩) ns, rem)

/-- The `postcssValueParser(value).nodes`. -/
def valueParseNodes (s : String) : VNodes :=
  (vparse (s.data.length + 1) s.data false).1

/-- Top-level word values, `nodes.filter(n => n.type === "word")`. -/
def vnWords : VNodes → List String
  | .nil => []
  | .cons (.word w) t => w :: vnWords t
  | .cons _ t => vnWords t

/-! ## `hexFromColorFunction` (src/index.js lines 319-333) -/

/-- The `s.replace("%", "")` — first occurrence only. -/
def removeFirstPct : List Char → List Char
  | [] => []
  | x :: r => if x = '%' then r else x :: removeFirstPct r

/-- The `hexFromColorFunction`: converts an `rgb()/rgba()` or `hsl()/hsla()`
function node to hex. Note the rgb guard `if (!r || !g || !b) return null`:
a missing, `NaN` **or zero** channel aborts. In the hsl branch the channels
are kept as strings, so only missing/empty ones abort. -/
def hexFromColorFunction (node : VNode) : Option String :=
  match node with
  | .vfunc name args _ =>
    if name == "rgb" || name == "rgba" then
      let nums := (vnWords args).map numOf
      let r := nums.getD 0 .undef
      let g := nums.getD 1 .undef
      let b := nums.getD 2 .undef
      let a := nums.getD 3 .undef
      match r, g, b with
      | .val rv, .val gv, .val bv =>
        if ¬jqIsZero rv ∧ ¬jqIsZero gv ∧ ¬jqIsZero bv then
          some (normalizeHexColor ("#" ++ rgbHexLower rv gv bv ++ alphaToHex a))
        else none
      | _, _, _ => none
    else if name == "hsl" || name == "hsla" then
      let ws := vnWords args
      match ws.get? 0, ws.get? 1, ws.get? 2 with
      | some h, some s, some l =>
        if h ≠ "" ∧ s ≠ "" ∧ l ≠ "" then
          let hq := jsNumber h
          let sq := jsNumber ⟨removeFirstPct s.data⟩
          let lq := jsNumber ⟨removeFirstPct l.data⟩
          let a : NumVal :=
            match ws.get? 3 with
            | none => .undef
            | some as' => numOf as'
          some (normalizeHexColor ("#" ++ hslHexLower hq sq lq ++ alphaToHex a))
        else none
      | _, _, _ => none
    else none
  | _ => none

/-! ## `cssColorNames` (src/index.js lines 21-170) -/

def cssColorNames : SMap String := [
  ("aliceblue", "#f0f8ff"), ("antiquewhite", "#faebd7"), ("aqua", "#00ffff"),
  ("aquamarine", "#7fffd4"), ("azure", "#f0ffff"), ("beige", "#f5f5dc"),
  ("bisque", "#ffe4c4"), ("black", "#000000"), ("blanchedalmond", "#ffebcd"),
  ("blue", "#0000ff"), ("blueviolet", "#8a2be2"), ("brown", "#a52a2a"),
  ("burlywood", "#deb887"), ("cadetblue", "#5f9ea0"), ("chartreuse", "#7fff00"),
  ("chocolate", "#d2691e"), ("coral", "#ff7f50"), ("cornflowerblue", "#6495ed"),
  ("cornsilk", "#fff8dc"), ("crimson", "#dc143c"), ("cyan", "#00ffff"),
  ("darkblue", "#00008b"), ("darkcyan", "#008b8b"), ("darkgoldenrod", "#b8860b"),
  ("darkgray", "#a9a9a9"), ("darkgreen", "#006400"), ("darkgrey", "#a9a9a9"),
  ("darkkhaki", "#bdb76b"), ("darkmagenta", "#8b008b"), ("darkolivegreen", "#556b2f"),
  ("darkorange", "#ff8c00"), ("darkorchid", "#9932cc"), ("darkred", "#8b0000"),
  ("darksalmon", "#e9967a"), ("darkseagreen", "#8fbc8f"), ("darkslateblue", "#483d8b"),
  ("darkslategray", "#2f4f4f"), ("darkslategrey", "#2f4f4f"), ("darkturquoise", "#00ced1"),
  ("darkviolet", "#9400d3"), ("deeppink", "#ff1493"), ("deepskyblue", "#00bfff"),
  ("dimgray", "#696969"), ("dimgrey", "#696969"), ("dodgerblue", "#1e90ff"),
  ("firebrick", "#b22222"), ("floralwhite", "#fffaf0"), ("forestgreen", "#228b22"),
  ("fuchsia", "#ff00ff"), ("gainsboro", "#dcdcdc"), ("ghostwhite", "#f8f8ff"),
  ("goldenrod", "#daa520"), ("gold", "#ffd700"), ("gray", "#808080"),
  ("green", "#008000"), ("greenyellow", "#adff2f"), ("grey", "#808080"),
  ("honeydew", "#f0fff0"), ("hotpink", "#ff69b4"), ("indianred", "#cd5c5c"),
  ("indigo", "#4b0082"), ("ivory", "#fffff0"), ("khaki", "#f0e68c"),
  ("lavenderblush", "#fff0f5"), ("lavender", "#e6e6fa"), ("lawngreen", "#7cfc00"),
  ("lemonchiffon", "#fffacd"), ("lightblue", "#add8e6"), ("lightcoral", "#f08080"),
  ("lightcyan", "#e0ffff"), ("lightgoldenrodyellow", "#fafad2"), ("lightgray", "#d3d3d3"),
  ("lightgreen", "#90ee90"), ("lightgrey", "#d3d3d3"), ("lightpink", "#ffb6c1"),
  ("lightsalmon", "#ffa07a"), ("lightseagreen", "#20b2aa"), ("lightskyblue", "#87cefa"),
  ("lightslategray", "#778899"), ("lightslategrey", "#778899"), ("lightsteelblue", "#b0c4de"),
  ("lightyellow", "#ffffe0"), ("lime", "#00ff00"), ("limegreen", "#32cd32"),
  ("linen", "#faf0e6"), ("magenta", "#ff00ff"), ("maroon", "#800000"),
  ("mediumaquamarine", "#66cdaa"), ("mediumblue", "#0000cd"), ("mediumorchid", "#ba55d3"),
  ("mediumpurple", "#9370db"), ("mediumseagreen", "#3cb371"), ("mediumslateblue", "#7b68ee"),
  ("mediumspringgreen", "#00fa9a"), ("mediumturquoise", "#48d1cc"), ("mediumvioletred", "#c71585"),
  ("midnightblue", "#191970"), ("mintcream", "#f5fffa"), ("mistyrose", "#ffe4e1"),
  ("moccasin", "#ffe4b5"), ("navajowhite", "#ffdead"), ("navy", "#000080"),
  ("oldlace", "#fdf5e6"), ("olive", "#808000"), ("olivedrab", "#6b8e23"),
  ("orange", "#ffa500"), ("orangered", "#ff4500"), ("orchid", "#da70d6"),
  ("palegoldenrod", "#eee8aa"), ("palegreen", "#98fb98"), ("paleturquoise", "#afeeee"),
  ("palevioletred", "#db7093"), ("papayawhip", "#ffefd5"), ("peachpuff", "#ffdab9"),
  ("peru", "#cd853f"), ("pink", "#ffc0cb"), ("plum", "#dda0dd"),
  ("powderblue", "#b0e0e6"), ("purple", "#800080"), ("rebeccapurple", "#663399"),
  ("red", "#ff0000"), ("rosybrown", "#bc8f8f"), ("royalblue", "#4169e1"),
  ("saddlebrown", "#8b4513"), ("salmon", "#fa8072"), ("sandybrown", "#f4a460"),
  ("seagreen", "#2e8b57"), ("seashell", "#fff5ee"), ("sienna", "#a0522d"),
  ("silver", "#c0c0c0"), ("skyblue", "#87ceeb"), ("slateblue", "#6a5acd"),
  ("slategray", "#708090"), ("slategrey", "#708090"), ("snow", "#fffafa"),
  ("springgreen", "#00ff7f"), ("steelblue", "#4682b4"), ("tan", "#d2b48c"),
  ("teal", "#008080"), ("thistle", "#d8bfd8"), ("tomato", "#ff6347"),
  ("turquoise", "#40e0d0"), ("violet", "#ee82ee"), ("wheat", "#f5deb3"),
  ("white", "#ffffff"), ("whitesmoke", "#f5f5f5"), ("yellow", "#ffff00"),
  ("yellowgreen", "#9acd32")]

def cssValueKeywords : List String :=
  ["currentcolor", "inherit", "initial", "none", "revert", "transparent", "unset"]

/-! ## `isColor` (src/index.js lines 302-314): the regexes are translated
literally, including their quirks (the third rgb channel is a single digit,
`[0-9]%+` in hsl). -/

def skipWsL (l : List Char) : List Char := l.dropWhile isWsChar

/-- The `[0-9]+` then the rest. -/
def matchDigits1 (l : List Char) : Option (List Char) :=
  let ds := l.takeWhile isDigitChar
  if ds.isEmpty then none else some (l.drop ds.length)

/-- The `[0-9.]+` then the rest. -/
def matchNumDots1 (l : List Char) : Option (List Char) :=
  let ds := l.takeWhile (fun c => isDigitChar c || c == '.')
  if ds.isEmpty then none else some (l.drop ds.length)

/-- Literal character expectation. -/
def matchChar (c : Char) : List Char → Option (List Char)
  | x :: r => if x = c then some r else none
  | [] => none

/-- The `\s*,\s*`. -/
def matchCommaWs (l : List Char) : Option (List Char) :=
  (matchChar ',' (skipWsL l)).map skipWsL

def matchLit : List Char → List Char → Option (List Char)
  | [], l => some l
  | c :: cs, l => (matchChar c l).bind (matchLit cs)

/-- A single `[0-9]`. -/
def matchDigit (l : List Char) : Option (List Char) :=
  match l with
  | x :: r => if isDigitChar x then some r else none
  | [] => none

/-- A single `[0-9]` followed by `%+`. -/
def matchDigitPct (l : List Char) : Option (List Char) := do
  let l1 ← matchDigit l
  let ps := l1.takeWhile (fun c => c == '%')
  if ps.isEmpty then none else some (l1.drop ps.length)

/-- The `/^rgb\([0-9]+\s*,\s*[0-9]+\s*,\s*[0-9]\)/`. -/
def matchRgbShape (l : List Char) : Bool :=
  (do
    let l ← matchLit "rgb(".data l
    let l ← matchDigits1 l
    let l ← matchCommaWs l
    let l ← matchDigits1 l
    let l ← matchCommaWs l
    let l ← matchDigit l
    matchChar ')' l).isSome

/-- The `/^rgba\([0-9]+\s*,\s*[0-9]+\s*,\s*[0-9]\s*,\s*[0-9.]+\)/`. -/
def matchRgbaShape (l : List Char) : Bool :=
  (do
    let l ← matchLit "rgba(".data l
    let l ← matchDigits1 l
    let l ← matchCommaWs l
    let l ← matchDigits1 l
    let l ← matchCommaWs l
    let l ← matchDigit l
    let l ← matchCommaWs l
    let l ← matchNumDots1 l
    matchChar ')' l).isSome

/-- The `/^hsl\([0-9]+\s*,\s*[0-9]%+\s*,\s*[0-9]%\)/`. -/
def matchHslShape (l : List Char) : Bool :=
  (do
    let l ← matchLit "hsl(".data l
    let l ← matchDigits1 l
    let l ← matchCommaWs l
    let l ← matchDigitPct l
    let l ← matchCommaWs l
    let l ← matchDigit l
    let l ← matchChar '%' l
    matchChar ')' l).isSome

/-- The `/^hsla\([0-9]+\s*,\s*[0-9]%+\s*,\s*[0-9]%\s*,\s*[0-9.]+\)/`. -/
def matchHslaShape (l : List Char) : Bool :=
  (do
    let l ← matchLit "hsla(".data l
    let l ← matchDigits1 l
    let l ← matchCommaWs l
    let l ← matchDigitPct l
    let l ← matchCommaWs l
    let l ← matchDigit l
    let l ← matchChar '%' l
    let l ← matchCommaWs l
    let l ← matchNumDots1 l
    matchChar ')' l).isSome

/-- The `/^#[0-9a-f]{n..m}$/` on already-lowercased data. -/
def matchHexShape (lo hi : Nat) (l : List Char) : Bool :=
  match l with
  | '#' :: ds => (ds.all isHexLower) && lo ≤ ds.length && ds.length ≤ hi
  | _ => false

/-- The `isColor` (src/index.js lines 302-314). -/
def isColor (value0 : String) : Bool :=
  let value := jsLower value0
  if smapHas cssColorNames value then true
  else if cssValueKeywords.contains value then true
  else if matchHexShape 3 4 value.data then true
  else if matchHexShape 6 6 value.data then true
  else if matchHexShape 8 8 value.data then true
  else if matchRgbShape value.data then true
  else if matchRgbaShape value.data then true
  else if matchHslShape value.data then true
  else if matchHslaShape value.data then true
  else false

/-! ## `normalizeColor` (src/index.js lines 335-361) -/

/-- The `/^#[0-9a-f]{3,8}$/i` (the value is already lowercased when tested). -/
def hexShapeCI (l : List Char) : Bool :=
  match l with
  | '#' :: ds => (ds.all isHexCI) && 3 ≤ ds.length && ds.length ≤ 8
  | _ => false

/-- The `normalizeColor`: lowercase, resolve color names, `transparent` and hex
forms collapse to canonical `#rrggbbaa` (fully transparent to `#00000000`),
a leading `rgb/rgba/hsl/hsla` function node is converted; anything else is
returned (lowercased) unchanged. -/
def normalizeColor (value0 : String) : String :=
  let value1 := jsLower value0
  let value2 :=
    match smapLookup cssColorNames value1 with
    | some v => v
    | none => value1
  let value3 := if value2 == "transparent" then "#00000000" else value2
  if hexShapeCI value3.data then
    let v := normalizeHexColor value3
    if jsDropN v 7 == "00" then "#00000000" else v
  else
    match valueParseNodes value3 with
    | .cons node _ =>
      match hexFromColorFunction node with
      | some nv => nv
      | none => value3
    | .nil => value3

/-! ## Declaration normalizer (src/index.js lines 363-409) -/

/-- A raw `(property, value, important)` declaration triple as handed to
`normalizeDecl`/`stringifyDecl` (the `raws` vendor-hack marker of
`getProperty` is absent at the modelled call sites, which pass plain
objects without `raws`). -/
structure RawDecl where
  prop : String
  value : String
  important : Bool
  deriving DecidableEq, Repr

/-- A normalized declaration as returned by `normalizeDecl`. -/
structure NDecl where
  prop : String
  value : String
  important : Bool
  origValue : String
  deriving DecidableEq, Repr

/-- The `/0(\.[0-9])/g` replacement ("remove leading zeroes"): every `0`
directly followed by `.` and a digit is dropped, scanning left to right and
resuming after each match. -/
def removeLeadingZeros : List Char → List Char
  | '0' :: '.' :: d :: rest =>
    if isDigitChar d then '.' :: d :: removeLeadingZeros rest
    else '0' :: removeLeadingZeros ('.' :: d :: rest)
  | c :: rest => c :: removeLeadingZeros rest
  | [] => []

def isLowerDash (c : Char) : Bool := ('a' ≤ c ∧ c ≤ 'z') || c == '-'

/-- Inner replacement `/,\s+/g → ","` of the paren-collapsing regex. -/
def collapseCommas : Nat → List Char → List Char
  | 0, l => l
  | _ + 1, [] => []
  | fuel + 1, ',' :: rest =>
    let ws := rest.takeWhile isWsChar
    if ws.isEmpty then ',' :: collapseCommas fuel rest
    else ',' :: collapseCommas fuel (rest.drop ws.length)
  | fuel + 1, c :: rest => c :: collapseCommas fuel rest

/-- Split a newline-free window at its last `)` that has at least one
character before it: returns the part before that `)` and the part after. -/
def lastCloseSplit (window : List Char) : Option (List Char × List Char) :=
  let tail := window.reverse.takeWhile (fun c => c ≠ ')')
  let j := window.length - tail.length
  if window.getD (j - 1) ' ' = ')' ∧ 2 ≤ j then
    some (window.take (j - 1), window.drop j)
  else none

/-- The `/([a-z-]+\()(.+)(\))/g` replacement of `normalizeDecl`: for each
match — a lowercase/dash run at the leftmost position where it directly
reaches `(` with some `)` later on the same line (`.` does not cross
newlines, and greedy `.+` runs to the line's last `)`) — whitespace after
commas inside the parentheses is removed. Scanning resumes after the match;
the remainder of that line holds no further `)`, so at most one match per
line fires. -/
def collapseParens : Nat → List Char → List Char
  | 0, l => l
  | _ + 1, [] => []
  | fuel + 1, l@(c :: rest) =>
    if isLowerDash c then
      let run := l.takeWhile isLowerDash
      let after := l.drop run.length
      match after with
      | '(' :: tail =>
        let window := tail.takeWhile (fun x => x ≠ '\n')
        let tailRest := tail.drop window.length
        match lastCloseSplit window with
        | some (m2, afterClose) =>
          run ++ '(' :: (collapseCommas (m2.length + 1) m2 ++ ')' ::
            collapseParens fuel (afterClose ++ tailRest))
        | none => c :: collapseParens fuel rest
      | _ => c :: collapseParens fuel rest
    else c :: collapseParens fuel rest

/-- Modelled from the `css-shorthand-properties` dependency: the properties
its `isShorthand` recognizes. -/
def shorthandProps : List String :=
  ["animation", "background", "border", "border-bottom", "border-color",
   "border-left", "border-radius", "border-right", "border-style",
   "border-top", "border-width", "column-rule", "columns", "flex",
   "flex-flow", "font", "grid", "grid-area", "grid-column", "grid-row",
   "grid-template", "list-style", "margin", "offset", "outline", "overflow",
   "padding", "place-content", "place-items", "place-self",
   "text-decoration", "text-emphasis", "transition", "mask"]

def isShorthandModel (p : String) : Bool := shorthandProps.contains p

/-- The `normalizeDecl` (src/index.js lines 363-388): lowercase the property,
remember the original value, strip leading zeroes and whitespace after
commas inside parens, run the value through `normalizeColor`, lowercase it
unless the property is `content` or the value starts with `url(`, and sort
the space-separated tokens of shorthand-property values. -/
def normalizeDecl (d : RawDecl) : NDecl :=
  let prop := jsLower d.prop
  let origValue := d.value
  let v1 : String := ⟨removeLeadingZeros d.value.data⟩
  let v2 : String := ⟨collapseParens (v1.data.length + 1) v1.data⟩
  let v3 := normalizeColor v2
  let v4 := if prop ≠ "content" ∧ ¬jsStarts v3 "url(" then jsLower v3 else v3
  let v5 :=
    if isShorthandModel prop then jsJoin " " (jsSortStrings (jsSplitChar ' ' v4))
    else v4
  ⟨prop, v5, d.important, origValue⟩

/-- The `stringifyDecl` (src/index.js lines 406-409). -/
def stringifyDecl (d : RawDecl) : String :=
  let n := normalizeDecl d
  n.prop ++ ": " ++ n.value ++ (if n.important then " !important" else "")

/-! ## `splitDecls`/`parseDecl` (src/index.js lines 185, 391-404) -/

/-- Modelled from the `split-string` dependency with `{separator: ";",
quotes: ["\x22", "'"]}`: split on `;` outside quoted runs, quotes kept
(escape sequences are not used by the modelled inputs). -/
def splitSemiQ : List Char → Option Char → List (List Char)
  | [], _ => [[]]
  | c :: rest, some q =>
    match splitSemiQ rest (if c = q then none else some q) with
    | [] => [[c]]
    | h :: t => (c :: h) :: t
  | c :: rest, none =>
    if c = ';' then [] :: splitSemiQ rest none
    else
      match splitSemiQ rest (if c = '"' ∨ c = '\'' then some c else none) with
      | [] => [[c]]
      | h :: t => (c :: h) :: t

def splitDecls (s : String) : List String :=
  (splitSemiQ s.data none).map (fun l => jsTrim ⟨l⟩)

/-- The `.replace(/;+$/, "")`. -/
def stripTrailingSemis (s : String) : String :=
  ⟨(s.data.reverse.dropWhile (fun c => c == ';')).reverse⟩

/-- One `;`-segment of `parseDecl`: split on every `:`, pop a final
`!important` part (only when the whole last `:`-part is exactly that), the
first part is the property, the rest are rejoined with `","` as the value.
An important-only segment leaves no property part (`parts.shift()` yields
`undefined`) and throws: `none`. -/
def parseDeclSeg (str : String) : Option NDecl :=
  let parts := jsSplitChar ':' str
  let important := jsLower (parts.getLastD "") == "!important"
  let parts2 := if important then parts.dropLast else parts
  match parts2 with
  | [] => none
  | p :: rest => some (normalizeDecl ⟨jsTrim p, jsTrim (jsJoin "," rest), important⟩)

/-- The `parseDecl` (src/index.js lines 391-404): trim, drop trailing `;`s,
split into `;`-segments and normalize each. -/
def parseDecl (s : String) : Option (List NDecl) :=
  let s1 := jsTrim (stripTrailingSemis (jsTrim s))
  (splitDecls s1).mapM parseDeclSeg

/-! ## Mapping compiler (src/index.js lines 411-457) -/

/-- The five lookup tables built by `prepareMappings` plus the `names`
provenance table that `addMapping` fills alongside. -/
structure St where
  decl : SMap (List NDecl)
  color : SMap String
  border : SMap String
  shadow : SMap String
  background : SMap String
  names : SMap String
  deriving DecidableEq, Repr

def emptySt : St := ⟨[], [], [], [], [], []⟩

/-- The `addMapping` (src/index.js lines 411-425): register the normalized key
(and, for keys parsed as not-important, a synthesized ` !important` twin)
for the parsed replacement declarations; an empty replacement string
registers nothing. `none` models the exception thrown when the key has no
property part. -/
def addMapping (st : St) (fromStringDecl toStringDecl : String) : Option St :=
  match parseDecl fromStringDecl, parseDecl toStringDecl with
  | none, _ => none
  | _, none => none
  | some [], some _ => none
  | some (fromDecl :: _), some toDecl =>
    if toStringDecl == "" then some st
    else
      let newName := stringifyDecl ⟨fromDecl.prop, fromDecl.value, fromDecl.important⟩
      let st1 := { st with
        names := smapInsert st.names newName fromStringDecl,
        decl := smapInsert st.decl newName toDecl }
      if ¬fromDecl.important then
        let newNameImportant := stringifyDecl ⟨fromDecl.prop, fromDecl.value, true⟩
        some { st1 with
          names := smapInsert st1.names newNameImportant (fromStringDecl ++ " !important"),
          decl := smapInsert st1.decl newNameImportant toDecl }
      else some st1

/-- One entry of `prepareMappings` (src/index.js lines 434-454): category
keys (`$border: `, `$background: `, `$box-shadow: `, `$value: `) store the
normalized (or `$`-token, verbatim) lowercased color in their table;
anything else is an exact declaration mapping. -/
def prepStep (st : St) (key newValue : String) : Option St :=
  if jsStarts key "$border: " then
    let value := jsDropN key 9
    let oldValue := jsLower (if jsStarts value "$" then value else normalizeColor value)
    some { st with border := smapInsert st.border oldValue newValue }
  else if jsStarts key "$background: " then
    let value := jsDropN key 13
    let oldValue := jsLower (if jsStarts value "$" then value else normalizeColor value)
    some { st with background := smapInsert st.background oldValue newValue }
  else if jsStarts key "$box-shadow: " then
    let value := jsDropN key 13
    let oldValue := jsLower (if jsStarts value "$" then value else normalizeColor value)
    some { st with shadow := smapInsert st.shadow oldValue newValue }
  else if jsStarts key "$value: " then
    let value := jsDropN key 8
    let oldValue := jsLower (if jsStarts value "$" then value else normalizeColor value)
    some { st with color := smapInsert st.color oldValue newValue }
  else addMapping st key newValue

def prepGo : List (String × String) → St → Option St
  | [], st => some st
  | (k, v) :: rest, st =>
    match prepStep st k v with
    | none => none
    | some st' => prepGo rest st'

/-- The `prepareMappings` (src/index.js lines 427-457): fold the raw mapping
specification, in order, into the five lookup tables (`Object.entries`
iterates string keys in insertion order). -/
def prepareMappings (ms : List (String × String)) : Option St := prepGo ms emptySt

/-! ## Resolution engine part 1: color lookup
(`assignNewColor`/`getNewColorValue`, src/index.js lines 498-521) -/

def take6Hex (l : List Char) : Option (List Char) :=
  match l with
  | a :: b :: c :: d :: e :: f :: _ =>
    if [a, b, c, d, e, f].all isHexCI then some [a, b, c, d, e, f] else none
  | _ => none

def take3Hex (l : List Char) : Option (List Char) :=
  match l with
  | a :: b :: c :: _ =>
    if [a, b, c].all isHexCI then some [a, b, c] else none
  | _ => none

/-- Leftmost match of `/[a-f0-9]{6}|[a-f0-9]{3}/i` (6 digits preferred at
each position). -/
def scanHexRun : List Char → Option (List Char)
  | [] => none
  | l@(_ :: rest) =>
    match take6Hex l with
    | some m => some m
    | none =>
      match take3Hex l with
      | some m => some m
      | none => scanHexRun rest

def hv0 (c : Char) : Nat := (hexVal c).getD 0

/-- Modelled from the `color-convert` dependency: `hex.rgb` takes the first
6- (or 3-)hex-digit run anywhere in the string, digit-doubles 3-digit runs,
and falls back to black when nothing matches. -/
def hexRgbModel (s : String) : Nat × Nat × Nat :=
  match scanHexRun s.data with
  | some [a, b, c, d, e, f] =>
    (hv0 a * 16 + hv0 b, hv0 c * 16 + hv0 d, hv0 e * 16 + hv0 f)
  | some [a, b, c] => (hv0 a * 17, hv0 b * 17, hv0 c * 17)
  | _ => (0, 0, 0)

/-- The `parseInt(two-char-string, 16)`: longest hex prefix; no digit is `NaN`
(`none`). -/
def parseIntHex2 (a b : Char) : Option Nat :=
  match hexVal a with
  | none => none
  | some va =>
    match hexVal b with
    | none => some va
    | some vb => some (va * 16 + vb)

/-- The `(255 - parseInt(p, 16)).toString(16).padStart(2, "0")`; a failed parse
propagates `NaN`, whose string form is `"NaN"`. -/
def invByteStr (a b : Char) : String :=
  match parseIntHex2 a b with
  | some v => jsHexPad2 (255 - v)
  | none => "NaN"

/-- The `assignNewColor` (src/index.js lines 498-508): the `$invert` token
complements the three color channel bytes of `/^#(..)(..)(..)(..)$/` and
keeps the alpha pair; any other replacement value is returned as is. The
destructuring of a failed regex match throws: `none`. -/
def assignNewColor (normalizedColor newValue : String) : Option String :=
  if newValue == "$invert" then
    match normalizedColor.data with
    | ['#', c1, c2, c3, c4, c5, c6, c7, c8] =>
      if [c1, c2, c3, c4, c5, c6, c7, c8].all (fun c => c ≠ '\n') then
        some ("#" ++ invByteStr c1 c2 ++ invByteStr c3 c4 ++ invByteStr c5 c6 ++ ⟨[c7, c8]⟩)
      else none
    | _ => none
  else some newValue

/-- JavaScript truthiness of a possibly-missing string (`""` is falsy). -/
def jsTruthyS : Option String → Option String
  | some "" => none
  | o => o

/-- The `getNewColorValue` (src/index.js lines 510-521): exact canonical-color
hit first; otherwise a `$monochrome` entry applies when the channel triple
(via `hex.rgb`) satisfies R=G=B, running the stored value through
`assignNewColor`. Outer `none` models a thrown exception, inner `none` the
`null` no-match result. -/
def getNewColorValue (normalizedValue : String) (colorMappings : SMap String) :
    Option (Option String) :=
  match jsTruthyS (smapLookup colorMappings normalizedValue) with
  | some v => some (some v)
  | none =>
    match jsTruthyS (smapLookup colorMappings "$monochrome") with
    | some mono =>
      let rgb := hexRgbModel normalizedValue
      if rgb.1 = rgb.2.1 ∧ rgb.2.1 = rgb.2.2 then
        match assignNewColor normalizedValue mono with
        | some s => some (some s)
        | none => none
      else some none
    | none => some none

/-! ## Resolution engine part 2: the value walk
(`checkNode`/`doReplace`/`replaceColorsInValue`, src/index.js lines 523-597) -/

def borderColorShorthands : List String :=
  ["border", "border-top", "border-left", "border-right", "border-bottom", "border-color"]

def borderColorLonghands : List String :=
  ["border-top-color", "border-left-color", "border-right-color", "border-bottom-color"]

def backgroundColorShorthands : List String := ["background"]

def backgroundColorLonghands : List String := ["background-color"]

def borderColorVars : List String := borderColorShorthands ++ borderColorLonghands

def backgroundColorVars : List String := backgroundColorShorthands ++ backgroundColorLonghands

/-- Result of consulting one category table inside `checkNode`: exception,
a truthy replacement (`if (newValue) return doReplace(...)`), or
fall-through. -/
inductive TableHit where
  | thrown : TableHit
  | hit (v : String) : TableHit
  | miss : TableHit
  deriving DecidableEq, Repr

def tryTable (nv : String) (tbl : SMap String) : TableHit :=
  match getNewColorValue nv tbl with
  | none => .thrown
  | some (some v) => if v == "" then .miss else .hit v
  | some none => .miss

/-- Result of the `checkNode` callback for one node. -/
inductive CheckRes where
  | thrown : CheckRes
  | replacedWith (v : String) : CheckRes
  | noMatch : CheckRes
  deriving DecidableEq, Repr

/-- The `checkNode` (src/index.js lines 558-573): border-family, then
background-family, then `box-shadow`, each falling through on a miss, and
finally the generic color table for every property. -/
def checkNode (prop nv : String) (st : St) : CheckRes :=
  let step1 :=
    if borderColorVars.contains prop || prop == "border-image" then tryTable nv st.border
    else .miss
  match step1 with
  | .thrown => .thrown
  | .hit v => .replacedWith v
  | .miss =>
    let step2 :=
      if backgroundColorVars.contains prop || prop == "background-image" then
        tryTable nv st.background
      else .miss
    match step2 with
    | .thrown => .thrown
    | .hit v => .replacedWith v
    | .miss =>
      let step3 := if prop == "box-shadow" then tryTable nv st.shadow else .miss
      match step3 with
      | .thrown => .thrown
      | .hit v => .replacedWith v
      | .miss =>
        match tryTable nv st.color with
        | .thrown => .thrown
        | .hit v => .replacedWith v
        | .miss => .noMatch

mutual
/-- The `postcssValueParser.walk` callback of `replaceColorsInValue` on one
node: color-shaped words and function nodes are normalized and resolved via
`checkNode`; `doReplace` turns a hit into a bare word node and captures the
original text; on a miss the walk descends into function arguments. Returns
the rewritten node, the captured original color texts in visit order, and
whether anything was replaced; `none` propagates a thrown exception. -/
def replNode (st : St) (prop : String) :
    VNode → Option (VNode × List String × Bool)
  | .word w =>
    if isColor w then
      match checkNode prop (normalizeColor w) st with
      | .thrown => none
      | .replacedWith newV => some (.word newV, [w], true)
      | .noMatch => some (.word w, [], false)
    else some (.word w, [], false)
  | .vfunc name args closed =>
    match checkNode prop (normalizeColor (vnodeStr (.vfunc name args closed))) st with
    | .thrown => none
    | .replacedWith newV =>
      some (.word newV, [vnodeStr (.vfunc name args closed)], true)
    | .noMatch =>
      match replNodes st prop args with
      | none => none
      | some (args', cs, rep) => some (.vfunc name args' closed, cs, rep)
  | .vstr v => some (.vstr v, [], false)
  | .vspace v => some (.vspace v, [], false)
  | .vdiv v => some (.vdiv v, [], false)

def replNodes (st : St) (prop : String) :
    VNodes → Option (VNodes × List String × Bool)
  | .nil => some (.nil, [], false)
  | .cons h t =>
    match replNode st prop h with
    | none => none
    | some (h', cs1, r1) =>
      match replNodes st prop t with
      | none => none
      | some (t', cs2, r2) => some (.cons h' t', cs1 ++ cs2, r1 || r2)
end

/-- The `Set` insertion order with duplicates dropped (first occurrence kept). -/
def dedupAux : List String → List String → List String
  | [], _ => []
  | x :: r, seen => if seen.contains x then dedupAux r seen else x :: dedupAux r (x :: seen)

def dedupKeepFirst (l : List String) : List String := dedupAux l []

/-- Body of `/\/\*\[\[(.+?)\]\]\*\//g → var(--uso-var-expanded-$1)`:
shortest non-empty newline-free run between `/*[[` and `]]*/`. -/
def usoBodyCore : Nat → List Char → List Char → Option (List Char × List Char)
  | 0, _, _ => none
  | fuel + 1, acc, rem =>
    if "]]*/".data.isPrefixOf rem ∧ ¬acc.isEmpty then some (acc.reverse, rem.drop 4)
    else
      match rem with
      | [] => none
      | c :: r => if c = '\n' then none else usoBodyCore fuel (c :: acc) r

/-- The `usoVarToCssVar` (src/index.js lines 469-471). -/
def usoVarCore : Nat → List Char → List Char
  | 0, l => l
  | _ + 1, [] => []
  | fuel + 1, l@(c :: rest) =>
    if "/*[[".data.isPrefixOf l then
      match usoBodyCore (l.length + 1) [] (l.drop 4) with
      | some (name, rem) =>
        "var(--uso-var-expanded-".data ++ name ++ ')' :: usoVarCore fuel rem
      | none => c :: usoVarCore fuel rest
    else c :: usoVarCore fuel rest

def usoVarToCssVar (s : String) : String := ⟨usoVarCore (s.data.length + 1) s.data⟩

/-- The `replaceColorsInValue` (src/index.js lines 575-597): walk the parsed
value, substitute matching color nodes, and return the restringified value
(only when something was replaced, else `null`) plus the de-duplicated
original color texts. -/
def replaceColorsInValue (prop value : String) (st : St) :
    Option (Option String × List String) :=
  let nodes := valueParseNodes value
  match replNodes st prop nodes with
  | none => none
  | some (nodes', cs, rep) =>
    some (if rep then some (usoVarToCssVar (vnodesStr nodes')) else none,
      dedupKeepFirst cs)

/-! ## Resolution engine part 3: the per-declaration branch of `plugin`
(src/index.js lines 599-671) -/

/-- Body (≥ 1 char, up to the first `)`, newline-free) of the lazy
`var\(--(?!uso-var-expanded).+?\)` tail. -/
def firstCloseNN (l : List Char) : Option (List Char) :=
  let body := l.takeWhile (fun c => c ≠ ')')
  if (l.drop body.length).isEmpty then none
  else if body.isEmpty then none
  else if body.contains '\n' then none
  else some body

/-- First match of `varRe = /var\(--(?!uso-var-expanded).+?\)/` as
`(before, token, after)`. -/
def varMatchSplit : Nat → List Char → List Char → Option (List Char × List Char × List Char)
  | 0, _, _ => none
  | _ + 1, _, [] => none
  | fuel + 1, before, l@(c :: rest) =>
    if "var(--".data.isPrefixOf l then
      let after := l.drop 6
      if "uso-var-expanded".data.isPrefixOf after then
        varMatchSplit fuel (c :: before) rest
      else
        match firstCloseNN after with
        | some body =>
          some (before.reverse, "var(--".data ++ body ++ [')'],
            after.drop (body.length + 1))
        | none => varMatchSplit fuel (c :: before) rest
    else varMatchSplit fuel (c :: before) rest

def hasVarToken (s : String) : Bool :=
  (varMatchSplit (s.data.length + 1) [] s.data).isSome

def varTokenOf (s : String) : Option String :=
  (varMatchSplit (s.data.length + 1) [] s.data).map (fun r => ⟨r.2.1⟩)

/-- The `newValue.replace(varRe, repl)` (non-global: first match only). -/
def replaceFirstVar (s repl : String) : String :=
  match varMatchSplit (s.data.length + 1) [] s.data with
  | some (before, _, after) => ⟨before ++ repl.data ++ after⟩
  | none => s

/-- The options consulted by the modelled declaration processing
(`defaults`: `validate: false`, `keep: false`). -/
structure Opts where
  validate : Bool
  keep : Bool
  deriving DecidableEq, Repr

def defaultOpts : Opts := ⟨false, false⟩

/-- Outcome of `walkDecls` for one declaration: replaced by new
declarations (with the provenance strings pushed to
`matchedDeclStrings`), kept untouched, or removed. -/
inductive DeclResult where
  | replaced (ds : List RawDecl) (prov : List String) : DeclResult
  | kept : DeclResult
  | removed : DeclResult
  deriving DecidableEq, Repr

def quoteS (s : String) : String := "\"" ++ s ++ "\""

/-- The exact-branch emission loop (src/index.js lines 611-625): one output
declaration per stored `NDecl`, emitting `origValue || value`, OR-ing the
`important` flags, pushing one quoted provenance name per output; with
`validate` on, the first invalid output aborts the whole replacement
(`return decl.remove()`), modelled as `none`. -/
def emitExactLoop (validate : Bool) (validF : String → String → Bool)
    (d : RawDecl) (nameStr : String) :
    List NDecl → Option (List RawDecl × List String)
  | [] => some ([], [])
  | nd :: rest =>
    let newProp := nd.prop
    let newValue := if nd.origValue == "" then nd.value else nd.origValue
    let newImportant := d.important || nd.important
    if validate ∧ ¬validF newProp newValue then none
    else
      match emitExactLoop validate validF d nameStr rest with
      | none => none
      | some (ds, ps) =>
        some (⟨newProp, newValue, newImportant⟩ :: ds, quoteS nameStr :: ps)

/-- The per-declaration body of the `plugin` `walkDecls` callback
(src/index.js lines 608-671). `expand` models the external
`expandShorthandProperty` (`none` = it threw), `validF` the external
`isValidDeclaration`. The outer `Option` propagates exceptions thrown by
the color walk. -/
def processDecl (expand : String → String → Option (List (String × String)))
    (validF : String → String → Bool) (opts : Opts) (st : St) (d : RawDecl) :
    Option DeclResult :=
  let declString := stringifyDecl d
  match smapLookup st.decl declString with
  | some ds =>
    let nameStr := (smapLookup st.names declString).getD "undefined"
    match emitExactLoop opts.validate validF d nameStr ds with
    | none => some .removed
    | some (outs, provs) => some (.replaced outs provs)
  | none =>
    match replaceColorsInValue d.prop d.value st with
    | none => none
    | some (none, _) => if opts.keep then some .kept else some .removed
    | some (some newValue, oldColors) =>
      if opts.validate ∧ ¬validF d.prop newValue then some .removed
      else
        let prov := oldColors.map quoteS
        if (borderColorShorthands.contains d.prop ∧ d.prop ≠ "border-color") ∨
            (backgroundColorShorthands.contains d.prop ∧ d.prop ≠ "background-color") then
          let containsVar := hasVarToken newValue
          let expandInput :=
            if containsVar then replaceFirstVar newValue "rgba(255,0,255,0)" else newValue
          match expand d.prop expandInput with
          | none => some (.replaced [⟨d.prop, newValue, d.important⟩] prov)
          | some entries =>
            let entries' := entries.map (fun pv =>
              (pv.1, if containsVar then (varTokenOf newValue).getD "undefined" else pv.2))
            let colorEntries := entries'.filter (fun pv => containsSub pv.1 "color")
            match colorEntries with
            | [] => some (.replaced [⟨d.prop, d.value, d.important⟩] prov)
            | first :: others =>
              some (.replaced
                (others.map (fun pv => (⟨pv.1, pv.2, d.important⟩ : RawDecl)) ++
                  [⟨first.1, first.2, d.important⟩]) prov)
        else some (.replaced [⟨d.prop, newValue, d.important⟩] prov)

/-! ## Helper lemmas and fixtures for the claim theorems -/

/-- The declaration emitted by the exact branch for one stored replacement:
`origValue || value` and the OR of the `important` flags. -/
def emitE (d : RawDecl) (nd : NDecl) : RawDecl :=
  ⟨nd.prop, if nd.origValue == "" then nd.value else nd.origValue, d.important || nd.important⟩

theorem emitExactLoop_no_validate (validF : String → String → Bool) (d : RawDecl)
    (nameStr : String) :
    ∀ ds : List NDecl,
      emitExactLoop false validF d nameStr ds =
        some (ds.map (emitE d), ds.map fun _ => quoteS nameStr)
  | [] => rfl
  | nd :: rest => by
    simp only [emitExactLoop, Bool.false_eq_true, false_and, if_false,
      emitExactLoop_no_validate validF d nameStr rest, List.map_cons, emitE]

theorem processDecl_exact_emit (expand : String → String → Option (List (String × String)))
    (validF : String → String → Bool) (opts : Opts) (hv : opts.validate = false)
    (st : St) (d : RawDecl) (ds : List NDecl)
    (hlook : smapLookup st.decl (stringifyDecl d) = some ds) :
    processDecl expand validF opts st d =
      some (.replaced (ds.map (emitE d))
        (ds.map fun _ => quoteS ((smapLookup st.names (stringifyDecl d)).getD "undefined"))) := by
  simp only [processDecl, hlook, hv, emitExactLoop_no_validate]

def expand0 : String → String → Option (List (String × String)) := fun _ _ => none

def valid0 : String → String → Bool := fun _ _ => true

def specC1 : List (String × String) :=
  [("color: red", "color: blue"), ("$value: red", "#00ff00")]

def stC1 : St :=
  ⟨[("color: #ff0000ff", [⟨"color", "#0000ffff", false, "blue"⟩]),
    ("color: #ff0000ff !important", [⟨"color", "#0000ffff", false, "blue"⟩])],
   [("#ff0000ff", "#00ff00")], [], [], [],
   [("color: #ff0000ff", "color: red"),
    ("color: #ff0000ff !important", "color: red !important")]⟩

/-- C1: a declaration whose normalized key is in the exact-declaration table
is replaced by that table's stored output declarations (with `origValue`
emission and OR-ed `important` flags), and the result does not depend on the
category/generic color tables — any state with the same `decl` and `names`
tables resolves identically. (Stated under the default `validate: false`;
the validation gate is a separate, explicitly-enabled filter.) -/
theorem C1_exact_match_precedence
    (expand : String → String → Option (List (String × String)))
    (validF : String → String → Bool) (opts : Opts) (st : St) (d : RawDecl)
    (ds : List NDecl)
    (hlook : smapLookup st.decl (stringifyDecl d) = some ds)
    (hv : opts.validate = false) :
    processDecl expand validF opts st d =
      some (.replaced (ds.map (emitE d))
        (ds.map fun _ => quoteS ((smapLookup st.names (stringifyDecl d)).getD "undefined"))) ∧
    ∀ st' : St, st'.decl = st.decl → st'.names = st.names →
      processDecl expand validF opts st' d = processDecl expand validF opts st d := by
  have h1 := processDecl_exact_emit expand validF opts hv st d ds hlook
  refine ⟨h1, fun st' hd hn => ?_⟩
  have h2 := processDecl_exact_emit expand validF opts hv st' d ds (by rw [hd]; exact hlook)
  rw [h1, h2, hn]

/-- Witness for C1: with both the exact mapping `"color: red" → "color:
blue"` and the generic `"$value: red" → "#00ff00"` compiled, the
declaration `color: red` is replaced by the exact mapping's output
`color: blue` (not by the generic color substitution). -/
theorem C1_exact_match_precedence_witness :
    prepareMappings specC1 = some stC1 ∧
    smapLookup stC1.decl (stringifyDecl ⟨"color", "red", false⟩) =
      some [⟨"color", "#0000ffff", false, "blue"⟩] ∧
    (defaultOpts.validate = false) ∧
    processDecl expand0 valid0 defaultOpts stC1 ⟨"color", "red", false⟩ =
      some (.replaced [⟨"color", "blue", false⟩] ["\"color: red\""]) := by
  refine ⟨by decide, by decide, rfl, ?_⟩
  have h := (C1_exact_match_precedence expand0 valid0 defaultOpts stC1
    ⟨"color", "red", false⟩ [⟨"color", "#0000ffff", false, "blue"⟩] (by decide) rfl).1
  rw [h]; decide

/-- C4: every declaration emitted through the exact-declaration table
carries the logical OR of the input declaration's `important` flag and the
stored replacement's own flag. -/
theorem C4_important_propagation
    (expand : String → String → Option (List (String × String)))
    (validF : String → String → Bool) (opts : Opts) (st : St) (d : RawDecl)
    (ds : List NDecl)
    (hlook : smapLookup st.decl (stringifyDecl d) = some ds)
    (hv : opts.validate = false) :
    processDecl expand validF opts st d =
      some (.replaced (ds.map (emitE d))
        (ds.map fun _ => quoteS ((smapLookup st.names (stringifyDecl d)).getD "undefined"))) ∧
    ∀ nd ∈ ds, (emitE d nd).important = (d.important || nd.important) := by
  exact ⟨processDecl_exact_emit expand validF opts hv st d ds hlook, fun nd _ => rfl⟩

def specC4 : List (String × String) := [("background: red", "background: blue")]

def stC4 : St :=
  ⟨[("background: #ff0000ff", [⟨"background", "#0000ffff", false, "blue"⟩]),
    ("background: #ff0000ff !important", [⟨"background", "#0000ffff", false, "blue"⟩])],
   [], [], [], [],
   [("background: #ff0000ff", "background: red"),
    ("background: #ff0000ff !important", "background: red !important")]⟩

/-- Witness for C4: `background: red !important` under the compiled mapping
`background: red → background: blue` yields `background: blue !important`
(the input's `important` flag survives the replacement). -/
theorem C4_important_propagation_witness :
    prepareMappings specC4 = some stC4 ∧
    smapLookup stC4.decl (stringifyDecl ⟨"background", "red", true⟩) =
      some [⟨"background", "#0000ffff", false, "blue"⟩] ∧
    processDecl expand0 valid0 defaultOpts stC4 ⟨"background", "red", true⟩ =
      some (.replaced [⟨"background", "blue", true⟩] ["\"background: red !important\""]) := by
  refine ⟨by decide, by decide, ?_⟩
  have h := (C4_important_propagation expand0 valid0 defaultOpts stC4
    ⟨"background", "red", true⟩ [⟨"background", "#0000ffff", false, "blue"⟩]
    (by decide) rfl).1
  rw [h]; decide

/-! ## Canonical colors and digit lemmas (for C5) -/

/-- A canonical 8-hex-digit color string `#rrggbbaa` built from its four
byte values (the CanonicalColor data-model constructor). -/
def canonColor (r g b a : Nat) : String :=
  ⟨'#' :: (hex2 r ++ hex2 g ++ hex2 b ++ hex2 a)⟩

theorem hexDigit_isHexCI_fin : ∀ n : Fin 16, isHexCI (hexDigit n.val) = true := by decide

theorem hexVal_hexDigit_fin : ∀ n : Fin 16, hexVal (hexDigit n.val) = some n.val := by decide

theorem hexDigit_ne_nl_fin : ∀ n : Fin 16, (hexDigit n.val ≠ '\n') = True := by decide

theorem jsHexPad2_eq_hex2_fin : ∀ n : Fin 256, jsHexPad2 n.val = ⟨hex2 n.val⟩ := by decide

theorem hexDigit_isHexCI {n : Nat} (h : n < 16) : isHexCI (hexDigit n) = true :=
  hexDigit_isHexCI_fin ⟨n, h⟩

theorem hexVal_hexDigit {n : Nat} (h : n < 16) : hexVal (hexDigit n) = some n :=
  hexVal_hexDigit_fin ⟨n, h⟩

theorem hexDigit_ne_nl (n : Nat) : (hexDigit n ≠ '\n') = True := by
  rcases Nat.lt_or_ge n 16 with h | h
  · exact hexDigit_ne_nl_fin ⟨n, h⟩
  · have : hexDigit n = 'x' := by
      unfold hexDigit
      exact List.getD_eq_default _ _ (by simpa [hexDigitChars] using h)
    simp [this]

theorem jsHexPad2_eq_hex2 {n : Nat} (h : n < 256) : jsHexPad2 n = ⟨hex2 n⟩ :=
  jsHexPad2_eq_hex2_fin ⟨n, h⟩

theorem div16_lt {n : Nat} (h : n < 256) : n / 16 < 16 := Nat.div_lt_of_lt_mul (by omega)

theorem mod16_lt (n : Nat) : n % 16 < 16 := Nat.mod_lt _ (by omega)

theorem scanHex_canon (r g b a : Nat) (hr : r < 256) (hg : g < 256) (hb : b < 256) :
    scanHexRun (canonColor r g b a).data =
      some [hexDigit (r / 16), hexDigit (r % 16), hexDigit (g / 16), hexDigit (g % 16),
        hexDigit (b / 16), hexDigit (b % 16)] := by
  have e0 : isHexCI '#' = false := rfl
  simp only [canonColor, hex2, List.cons_append, List.nil_append]
  simp only [scanHexRun, take6Hex, take3Hex, List.all_cons, List.all_nil, e0,
    hexDigit_isHexCI (div16_lt hr), hexDigit_isHexCI (mod16_lt r),
    hexDigit_isHexCI (div16_lt hg), hexDigit_isHexCI (mod16_lt g),
    hexDigit_isHexCI (div16_lt hb), hexDigit_isHexCI (mod16_lt b),
    Bool.false_and, Bool.true_and, Bool.and_true, if_false, if_true,
    Bool.false_eq_true, reduceIte]

theorem hexRgb_canon (r g b a : Nat) (hr : r < 256) (hg : g < 256) (hb : b < 256) :
    hexRgbModel (canonColor r g b a) = (r, g, b) := by
  unfold hexRgbModel
  rw [scanHex_canon r g b a hr hg hb]
  simp only [hv0, hexVal_hexDigit (div16_lt hr), hexVal_hexDigit (mod16_lt r),
    hexVal_hexDigit (div16_lt hg), hexVal_hexDigit (mod16_lt g),
    hexVal_hexDigit (div16_lt hb), hexVal_hexDigit (mod16_lt b), Option.getD_some]
  refine Prod.ext ?_ (Prod.ext ?_ ?_) <;> simp <;> omega

theorem strMk_append (l1 l2 : List Char) : (⟨l1⟩ : String) ++ ⟨l2⟩ = ⟨l1 ++ l2⟩ := rfl

theorem assignNewColor_invert (r g b a : Nat) (hr : r < 256) (hg : g < 256)
    (hb : b < 256) :
    assignNewColor (canonColor r g b a) "$invert" =
      some (canonColor (255 - r) (255 - g) (255 - b) a) := by
  have hinv : ∀ x : Nat, x < 256 →
      invByteStr (hexDigit (x / 16)) (hexDigit (x % 16)) = ⟨hex2 (255 - x)⟩ := by
    intro x hx
    simp only [invByteStr, parseIntHex2, hexVal_hexDigit (div16_lt hx),
      hexVal_hexDigit (mod16_lt x)]
    have : x / 16 * 16 + x % 16 = x := by omega
    rw [this, jsHexPad2_eq_hex2 (by omega)]
  simp only [canonColor, hex2, List.cons_append, List.nil_append]
  simp only [assignNewColor, beq_self_eq_true, if_true, List.all_cons, List.all_nil,
    hexDigit_ne_nl, decide_True, Bool.true_and, Bool.and_true, reduceIte]
  have h1 := hinv r hr
  have h2 := hinv g hg
  have h3 := hinv b hb
  simp only [hex2] at h1 h2 h3
  rw [h1, h2, h3]
  have : ("#" : String) = ⟨['#']⟩ := rfl
  rw [this, strMk_append, strMk_append, strMk_append, strMk_append]
  simp [hex2, canonColor]

/-- C5: in a category table with a `$monochrome → $invert` entry, a
canonical color with equal channels and no exact entry resolves to the
per-channel complement (255 minus each channel) with the alpha pair
preserved, and a canonical color with unequal channels never matches the
`$monochrome` entry. -/
theorem C5_monochrome_invert :
    (∀ r a : Nat, r < 256 → a < 256 → ∀ m : SMap String,
      jsTruthyS (smapLookup m (canonColor r r r a)) = none →
      jsTruthyS (smapLookup m "$monochrome") = some "$invert" →
      getNewColorValue (canonColor r r r a) m =
        some (some (canonColor (255 - r) (255 - r) (255 - r) a))) ∧
    (∀ r g b a : Nat, r < 256 → g < 256 → b < 256 → ¬(r = g ∧ g = b) →
      ∀ m : SMap String, jsTruthyS (smapLookup m (canonColor r g b a)) = none →
      getNewColorValue (canonColor r g b a) m = some none) := by
  constructor
  · intro r a hr _ m hmiss hmono
    unfold getNewColorValue
    rw [hmiss, hmono, hexRgb_canon r r r a hr hr hr]
    simp only [and_self, if_true, reduceIte]
    rw [assignNewColor_invert r r r a hr hr hr]
  · intro r g b a hr hg hb hne m hmiss
    unfold getNewColorValue
    rw [hmiss]
    cases hmono : jsTruthyS (smapLookup m "$monochrome") with
    | none => rfl
    | some t =>
      rw [hexRgb_canon r g b a hr hg hb]
      simp only [hne, if_false, reduceIte]

def monoMap : SMap String := [("$monochrome", "$invert")]

/-- Witness for C5: `#282828ff` (R=G=B=40) under `$monochrome → $invert`
yields `#d7d7d7ff` (255−40 = 215 = 0xd7), alpha unchanged. -/
theorem C5_monochrome_invert_witness :
    jsTruthyS (smapLookup monoMap (canonColor 40 40 40 255)) = none ∧
    jsTruthyS (smapLookup monoMap "$monochrome") = some "$invert" ∧
    getNewColorValue "#282828ff" monoMap = some (some "#d7d7d7ff") := by
  refine ⟨by decide, by decide, ?_⟩
  have h := C5_monochrome_invert.1 40 255 (by omega) (by omega) monoMap
    (by decide) (by decide)
  have e1 : canonColor 40 40 40 255 = "#282828ff" := by decide
  have e2 : canonColor (255 - 40) (255 - 40) (255 - 40) 255 = "#d7d7d7ff" := by decide
  rw [e1, e2] at h
  exact h

/-! ## Map lemmas and compile-invariant machinery (for C3) -/

theorem smapHas_of_lookup {α : Type} {m : SMap α} {k : String} {v : α}
    (h : smapLookup m k = some v) : smapHas m k = true := by
  unfold smapLookup at h
  unfold smapHas
  cases hf : m.find? (fun p => p.1 == k) with
  | none => rw [hf] at h; simp at h
  | some p =>
    have := List.find?_some hf
    have hm := List.mem_of_find?_eq_some hf
    exact List.any_eq_true.mpr ⟨p, hm, this⟩

theorem smapHas_smapInsert_self {α : Type} (m : SMap α) (k : String) (v : α) :
    smapHas (smapInsert m k v) k = true := by
  unfold smapInsert
  by_cases h : smapHas m k
  · rw [if_pos h]
    obtain ⟨p, hm, hp⟩ := List.any_eq_true.mp h
    refine List.any_eq_true.mpr ⟨(k, v), ?_, by simp⟩
    exact List.mem_map.mpr ⟨p, hm, by simp [hp]⟩
  · rw [if_neg h]
    unfold smapHas
    refine List.any_eq_true.mpr ⟨(k, v), by simp, by simp⟩

theorem smapHas_smapInsert_mono {α : Type} (m : SMap α) (k x : String) (v : α)
    (hx : smapHas m x = true) : smapHas (smapInsert m k v) x = true := by
  unfold smapInsert
  obtain ⟨p, hm, hp⟩ := List.any_eq_true.mp hx
  by_cases h : smapHas m k
  · rw [if_pos h]
    by_cases hpk : p.1 == k
    · have hkx : (k == x) = true := by
        have e1 : p.1 = k := by simpa using hpk
        have e2 : p.1 = x := by simpa using hp
        simp [← e1, e2]
      refine List.any_eq_true.mpr ⟨(k, v), List.mem_map.mpr ⟨p, hm, by simp [hpk]⟩, hkx⟩
    · refine List.any_eq_true.mpr ⟨p, List.mem_map.mpr ⟨p, hm, by simp [hpk]⟩, hp⟩
  · rw [if_neg h]
    exact List.any_eq_true.mpr ⟨p, by simp [hm], hp⟩

theorem strBeq_comm (a b : String) : (a == b) = (b == a) := by
  by_cases h : a = b
  · simp [h]
  · simp [beq_eq_false_iff_ne, h, Ne.symm h]

theorem smapLookup_smapInsert_self {α : Type} (m : SMap α) (k : String) (v : α) :
    smapLookup (smapInsert m k v) k = some v := by
  unfold smapInsert
  by_cases h : smapHas m k
  · rw [if_pos h]
    unfold smapHas at h
    unfold smapLookup
    induction m with
    | nil => simp at h
    | cons p t ih =>
      rw [List.map_cons, List.find?_cons]
      by_cases hpk : (p.1 == k) = true
      · have e : (if (p.1 == k) = true then (k, v) else p) = (k, v) := if_pos hpk
        rw [e]
        simp
      · have e : (if (p.1 == k) = true then (k, v) else p) = p := if_neg hpk
        have hpk' : (p.1 == k) = false := by simpa using hpk
        rw [e, hpk']
        simp only []
        apply ih
        simp only [List.any_cons, hpk'] at h
        simpa using h
  · rw [if_neg h]
    unfold smapLookup
    rw [List.find?_append]
    have hnone : m.find? (fun p => p.1 == k) = none := by
      rw [List.find?_eq_none]
      intro p hp hc
      exact h (List.any_eq_true.mpr ⟨p, hp, hc⟩)
    rw [hnone]
    simp [List.find?_cons]

theorem find?_overwrite {α : Type} (t : List (String × α)) (k x : String) (v : α)
    (hkx : (k == x) = false) :
    List.find? (fun p => p.1 == x)
        (t.map (fun p => if (p.1 == k) = true then (k, v) else p)) =
      List.find? (fun p => p.1 == x) t := by
  induction t with
  | nil => simp
  | cons p t ih =>
    rw [List.map_cons, List.find?_cons, List.find?_cons]
    by_cases hpk : (p.1 == k) = true
    · have e : (if (p.1 == k) = true then (k, v) else p) = (k, v) := if_pos hpk
      rw [e]
      have hpx : (p.1 == x) = false := by
        have he : p.1 = k := by simpa using hpk
        rw [he]; exact hkx
      simp only [hpx, hkx]
      exact ih
    · have e : (if (p.1 == k) = true then (k, v) else p) = p := if_neg hpk
      rw [e]
      cases hpx : (p.1 == x) with
      | true => simp only [hpx]
      | false => simp only [hpx]; exact ih

theorem smapLookup_smapInsert_other {α : Type} (m : SMap α) (k x : String) (v : α)
    (h : (x == k) = false) : smapLookup (smapInsert m k v) x = smapLookup m x := by
  have hkx : (k == x) = false := by rw [strBeq_comm]; exact h
  unfold smapInsert
  by_cases hk : smapHas m k
  · rw [if_pos hk]
    unfold smapLookup
    rw [find?_overwrite m k x v hkx]
  · rw [if_neg hk]
    unfold smapLookup
    rw [List.find?_append]
    cases hf : m.find? (fun p => p.1 == x) with
    | some p => simp
    | none => simp [List.find?_cons, hkx]

theorem strData_append (a b : String) : (a ++ b).data = a.data ++ b.data := by
  cases a; cases b; rfl

theorem strAppend_empty (s : String) : s ++ "" = s := by
  cases s with
  | mk l =>
    rw [show ("" : String) = ⟨[]⟩ from rfl, strMk_append, List.append_nil]

theorem normalizeDecl_prop_imp (p v : String) (b1 b2 : Bool) :
    (normalizeDecl ⟨p, v, b1⟩).prop = (normalizeDecl ⟨p, v, b2⟩).prop := rfl

theorem stringifyDecl_true_eq (p v : String) :
    stringifyDecl ⟨p, v, true⟩ = stringifyDecl ⟨p, v, false⟩ ++ " !important" := by
  unfold stringifyDecl
  simp only []
  rw [show (normalizeDecl ⟨p, v, true⟩).important = true from rfl,
    show (normalizeDecl ⟨p, v, false⟩).important = false from rfl]
  simp only [reduceIte, Bool.false_eq_true, if_false, if_true]
  rw [strAppend_empty]
  rw [show (normalizeDecl ⟨p, v, true⟩).prop = (normalizeDecl ⟨p, v, false⟩).prop from rfl,
    show (normalizeDecl ⟨p, v, true⟩).value = (normalizeDecl ⟨p, v, false⟩).value from rfl]

theorem str_ne_append_imp (s : String) : (s == s ++ " !important") = false := by
  rw [beq_eq_false_iff_ne]
  intro h
  have hlen := congrArg (fun t : String => t.data.length) h
  simp only [strData_append, List.length_append] at hlen
  have e11 : (" !important" : String).data.length = 11 := rfl
  rw [e11] at hlen
  omega

theorem addMapping_decl_mono {st st' : St} {k v : String}
    (h : addMapping st k v = some st') (x : String)
    (hx : smapHas st.decl x = true) : smapHas st'.decl x = true := by
  unfold addMapping at h
  cases hp : parseDecl k with
  | none => rw [hp] at h; simp at h
  | some fl =>
    cases hq : parseDecl v with
    | none => rw [hp, hq] at h; simp at h
    | some td =>
      rw [hp, hq] at h
      cases fl with
      | nil => simp at h
      | cons fd rest =>
        simp only [] at h
        by_cases hv : (v == "") = true
        · rw [if_pos hv] at h
          cases h
          exact hx
        · rw [if_neg hv] at h
          by_cases himp : fd.important = true
          · rw [if_neg (by simp [himp])] at h
            cases h
            exact smapHas_smapInsert_mono _ _ _ _ hx
          · rw [if_pos (by simp [Bool.not_eq_true] at himp ⊢; simp [himp])] at h
            cases h
            exact smapHas_smapInsert_mono _ _ _ _ (smapHas_smapInsert_mono _ _ _ _ hx)

theorem prepStep_decl_mono {st st' : St} {k v : String}
    (h : prepStep st k v = some st') (x : String)
    (hx : smapHas st.decl x = true) : smapHas st'.decl x = true := by
  unfold prepStep at h
  split_ifs at h
  · cases h; exact hx
  · cases h; exact hx
  · cases h; exact hx
  · cases h; exact hx
  · exact addMapping_decl_mono h x hx

theorem prepStep_twin {st st' : St} {k v : String}
    (h1 : jsStarts k "$border: " = false) (h2 : jsStarts k "$background: " = false)
    (h3 : jsStarts k "$box-shadow: " = false) (h4 : jsStarts k "$value: " = false)
    {fd : NDecl} {rest : List NDecl} {td : List NDecl}
    (hp : parseDecl k = some (fd :: rest)) (himp : fd.important = false)
    (htd : parseDecl v = some td) (hv : (v == "") = false)
    (h : prepStep st k v = some st') :
    smapLookup st'.decl (stringifyDecl ⟨fd.prop, fd.value, true⟩) = some td ∧
    smapLookup st'.decl (stringifyDecl ⟨fd.prop, fd.value, false⟩) = some td := by
  unfold prepStep at h
  rw [if_neg (by simp [h1]), if_neg (by simp [h2]), if_neg (by simp [h3]),
    if_neg (by simp [h4])] at h
  unfold addMapping at h
  rw [hp, htd] at h
  simp only [] at h
  rw [if_neg (by simp [hv]), if_pos (by simp [himp])] at h
  cases h
  constructor
  · exact smapLookup_smapInsert_self _ _ _
  · rw [smapLookup_smapInsert_other _ _ _ _
      (by rw [stringifyDecl_true_eq]; exact str_ne_append_imp _)]
    rw [himp]
    exact smapLookup_smapInsert_self _ _ _

theorem prepGo_decl_mono :
    ∀ (ms : List (String × String)) (st st' : St), prepGo ms st = some st' →
      ∀ x, smapHas st.decl x = true → smapHas st'.decl x = true
  | [], st, st', h, x, hx => by
    unfold prepGo at h
    cases h
    exact hx
  | (k, v) :: rest, st, st', h, x, hx => by
    unfold prepGo at h
    cases hstep : prepStep st k v with
    | none => rw [hstep] at h; simp at h
    | some stm =>
      rw [hstep] at h
      exact prepGo_decl_mono rest stm st' h x (prepStep_decl_mono hstep x hx)

theorem prepGo_twin_presence :
    ∀ (ms : List (String × String)) (st st' : St), prepGo ms st = some st' →
      ∀ k v, (k, v) ∈ ms →
      jsStarts k "$border: " = false → jsStarts k "$background: " = false →
      jsStarts k "$box-shadow: " = false → jsStarts k "$value: " = false →
      (v == "") = false →
      ∀ (fd : NDecl) (rest : List NDecl), parseDecl k = some (fd :: rest) →
      fd.important = false →
      smapHas st'.decl (stringifyDecl ⟨fd.prop, fd.value, true⟩) = true
  | [], _, _, _, _, _, hmem, _, _, _, _, _, _, _, _, _ => by cases hmem
  | (k0, v0) :: ms, st, st', h, k, v, hmem, h1, h2, h3, h4, hv, fd, rest, hp, himp => by
    unfold prepGo at h
    cases hstep : prepStep st k0 v0 with
    | none => rw [hstep] at h; simp at h
    | some stm =>
      rw [hstep] at h
      rcases List.mem_cons.mp hmem with heq | hmem'
      · obtain ⟨hk, hv0⟩ := Prod.mk.injEq .. ▸ (by exact heq : (k, v) = (k0, v0))
        subst hk
        subst hv0
        cases htd : parseDecl v with
        | none =>
          exfalso
          unfold prepStep at hstep
          rw [if_neg (by simp [h1]), if_neg (by simp [h2]), if_neg (by simp [h3]),
            if_neg (by simp [h4])] at hstep
          unfold addMapping at hstep
          rw [hp, htd] at hstep
          simp at hstep
        | some td =>
          have htwin := (prepStep_twin h1 h2 h3 h4 hp himp htd hv hstep).1
          exact prepGo_decl_mono ms stm st' h _ (smapHas_of_lookup htwin)
      · exact prepGo_twin_presence ms stm st' h k v hmem' h1 h2 h3 h4 hv fd rest hp himp

def spec3early : List (String × String) :=
  [("color: #ff0000ff !important", "color: blue"), ("color: red", "color: green")]

def spec3later : List (String × String) :=
  [("color: red", "color: green"), ("color: #ff0000ff !important", "color: blue")]

/-- Counterexample for C3: in a specification that lists the explicit
`!important` variant `"color: #ff0000ff !important" → "color: blue"` *before*
the plain entry `"color: red" → "color: green"`, the compiled table's entry
for the `!important` twin key is the *synthesized* replacement (`green`),
not the user's explicit one (`blue`): the user entry does not win when it
comes first, refuting "regardless of the order of entries". -/
theorem C3_important_twin_counterexample :
    (prepareMappings spec3early).bind
        (fun st => smapLookup st.decl "color: #ff0000ff !important") =
      some [⟨"color", "#008000ff", false, "green"⟩] ∧
    parseDecl "color: blue" = some [⟨"color", "#0000ffff", false, "blue"⟩] ∧
    ([⟨"color", "#008000ff", false, "green"⟩] : List NDecl) ≠
      [⟨"color", "#0000ffff", false, "blue"⟩] := by
  refine ⟨by decide, by decide, by decide⟩

/-- C3 (amended): (1) when an exact entry whose key parses without
`!important` is registered, both the key and its synthesized `!important`
twin are mapped to the entry's parsed output; (2) after compiling any
specification, the twin key of every such entry is still present in the
exact table; (3) table entries are last-write-wins in specification order:
the user's explicit `!important` entry overrides the synthesized twin when
it appears *after* the plain entry, and (4) is overwritten by the
synthesized twin when it appears *before* it. -/
theorem C3_important_twin_amended :
    (∀ (st st' : St) (k v : String),
      jsStarts k "$border: " = false → jsStarts k "$background: " = false →
      jsStarts k "$box-shadow: " = false → jsStarts k "$value: " = false →
      (v == "") = false →
      ∀ (fd : NDecl) (rest td : List NDecl), parseDecl k = some (fd :: rest) →
      fd.important = false → parseDecl v = some td →
      prepStep st k v = some st' →
      smapLookup st'.decl (stringifyDecl ⟨fd.prop, fd.value, true⟩) = some td ∧
      smapLookup st'.decl (stringifyDecl ⟨fd.prop, fd.value, false⟩) = some td) ∧
    (∀ (ms : List (String × String)) (st' : St), prepareMappings ms = some st' →
      ∀ k v, (k, v) ∈ ms →
      jsStarts k "$border: " = false → jsStarts k "$background: " = false →
      jsStarts k "$box-shadow: " = false → jsStarts k "$value: " = false →
      (v == "") = false →
      ∀ (fd : NDecl) (rest : List NDecl), parseDecl k = some (fd :: rest) →
      fd.important = false →
      smapHas st'.decl (stringifyDecl ⟨fd.prop, fd.value, true⟩) = true) ∧
    (prepareMappings spec3later).bind
        (fun st => smapLookup st.decl "color: #ff0000ff !important") =
      some [⟨"color", "#0000ffff", false, "blue"⟩] ∧
    (prepareMappings spec3early).bind
        (fun st => smapLookup st.decl "color: #ff0000ff !important") =
      some [⟨"color", "#008000ff", false, "green"⟩] := by
  refine ⟨?_, ?_, by decide, by decide⟩
  · intro st st' k v h1 h2 h3 h4 hv fd rest td hp himp htd h
    exact prepStep_twin h1 h2 h3 h4 hp himp htd hv h
  · intro ms st' h k v hmem h1 h2 h3 h4 hv fd rest hp himp
    exact prepGo_twin_presence ms emptySt st' h k v hmem h1 h2 h3 h4 hv fd rest hp himp

/-- Witness for C3 (amended): compiling `"background: red" → "background:
blue"` leaves the synthesized twin key `background: #ff0000ff !important`
present in the exact table. -/
theorem C3_important_twin_amended_witness :
    prepareMappings specC4 = some stC4 ∧
    parseDecl "background: red" = some [⟨"background", "#ff0000ff", false, "red"⟩] ∧
    stringifyDecl ⟨"background", "#ff0000ff", true⟩ = "background: #ff0000ff !important" ∧
    smapHas stC4.decl "background: #ff0000ff !important" = true := by
  refine ⟨by decide, by decide, by decide, ?_⟩
  have h := C3_important_twin_amended.2.1 specC4 stC4 (by decide)
    "background: red" "background: blue" (by decide) (by decide) (by decide)
    (by decide) (by decide) (by decide) ⟨"background", "#ff0000ff", false, "red"⟩ []
    (by decide) rfl
  have e : stringifyDecl ⟨"background", "#ff0000ff", true⟩ =
      "background: #ff0000ff !important" := by decide
  rw [e] at h
  exact h

/-! ## C9: compilation of unrecognized category tokens -/

theorem strEta (s : String) : (⟨s.data⟩ : String) = s := by cases s; rfl

theorem isPrefixOf_append_self (l t : List Char) : l.isPrefixOf (l ++ t) = true := by
  induction l with
  | nil => simp [List.isPrefixOf]
  | cons a l ih => simp [List.isPrefixOf, ih]

/-- Counterexample for C9: compiling a specification containing
`$border: $bogus` does not raise any error — it returns the compiled tables,
with the unrecognized token stored inert in the border table. -/
theorem C9_compile_error_counterexample :
    prepareMappings [("$border: $bogus", "#fff")] =
      some ⟨[], [], [("$bogus", "#fff")], [], [], []⟩ := by decide

/-- C9 (amended): mapping compilation never fails on a category entry whose
value portion is an unrecognized `$` token; the entry is stored, lowercased
and verbatim, in the category table (shown here for the `$border` category,
whose branch all the category branches mirror). -/
theorem C9_compile_total_amended (tok v : String) (htok : jsStarts tok "$" = true) :
    prepareMappings [("$border: " ++ tok, v)] =
      some ⟨[], [], [(jsLower tok, v)], [], [], []⟩ := by
  have hpre : jsStarts ("$border: " ++ tok) "$border: " = true := by
    unfold jsStarts
    rw [strData_append]
    exact isPrefixOf_append_self _ _
  have hdrop : jsDropN ("$border: " ++ tok) 9 = tok := by
    unfold jsDropN
    rw [strData_append]
    rw [show (9 : Nat) = ("$border: " : String).data.length from rfl, List.drop_left]
  unfold prepareMappings prepGo prepStep
  rw [if_pos (by simp [hpre]), hdrop]
  simp only []
  rw [if_pos htok]
  rfl

/-- Witness for C9 (amended): the `$bogus` token is stored inert. -/
theorem C9_compile_total_amended_witness :
    jsStarts "$bogus" "$" = true ∧
    prepareMappings [("$border: " ++ "$bogus", "#fff")] =
      some ⟨[], [], [(jsLower "$bogus", "#fff")], [], [], []⟩ := by
  refine ⟨by decide, ?_⟩
  exact C9_compile_total_amended "$bogus" "#fff" (by decide)

/-! ## C10: `parseDecl` colon splitting -/

theorem splitCharList_ne_nil (sep : Char) : ∀ l : List Char, splitCharList sep l ≠ []
  | [] => by simp [splitCharList]
  | c :: rest => by
    unfold splitCharList
    cases h : splitCharList sep rest with
    | nil =>
      by_cases hc : c = sep
      · simp [hc]
      · simp [hc]
    | cons a t =>
      by_cases hc : c = sep
      · simp [hc]
      · simp [hc]

theorem splitSemiQ_single : ∀ l : List Char,
    (∀ c ∈ l, c ≠ ';' ∧ c ≠ '"' ∧ c ≠ '\'') → splitSemiQ l none = [l]
  | [], _ => rfl
  | c :: rest, h => by
    obtain ⟨hc1, hc2, hc3⟩ := h c (by simp)
    have hr := splitSemiQ_single rest (fun x hx => h x (by simp [hx]))
    unfold splitSemiQ
    rw [if_neg hc1, if_neg (by simp [hc2, hc3])]
    rw [hr]

theorem stripTrailingSemis_of_no_semi (s : String) (h : ∀ c ∈ s.data, c ≠ ';') :
    stripTrailingSemis s = s := by
  unfold stripTrailingSemis
  cases hr : s.data.reverse with
  | nil =>
    rw [List.dropWhile_nil]
    rw [show ([] : List Char).reverse = s.data.reverse.reverse from by rw [hr]]
    rw [List.reverse_reverse]
  | cons c t =>
    have hc : c ∈ s.data := by
      have : c ∈ s.data.reverse := by rw [hr]; simp
      simpa using this
    rw [List.dropWhile_cons, if_neg (by simp [h c hc])]
    rw [show (c :: t) = s.data.reverse from hr.symm, List.reverse_reverse]

/-- C10: `parseDecl` splits a declaration string on every colon, takes the
first part as property and rejoins the remaining parts with `","` as the
value; consequently an exact-mapping replacement with `url(http://x)` is
registered with value `url(http,//x)`, while a value without extra colons
is unaffected. -/
theorem C10_parse_colon_comma :
    (∀ s : String, jsTrim s = s →
      (∀ c ∈ s.data, c ≠ ';' ∧ c ≠ '"' ∧ c ≠ '\'') →
      (jsLower ((jsSplitChar ':' s).getLastD "") == "!important") = false →
      parseDecl s =
        some [normalizeDecl ⟨jsTrim ((jsSplitChar ':' s).headI),
          jsTrim (jsJoin "," ((jsSplitChar ':' s).drop 1)), false⟩]) ∧
    (prepareMappings [("background: red", "background: url(http://x)")]).bind
        (fun st => smapLookup st.decl "background: #ff0000ff") =
      some [⟨"background", "url(http,//x)", false, "url(http,//x)"⟩] ∧
    parseDecl "background: blue" = some [⟨"background", "#0000ffff", false, "blue"⟩] := by
  refine ⟨?_, by decide, by decide⟩
  intro s htrim hclean himp
  unfold parseDecl
  simp only []
  rw [htrim, stripTrailingSemis_of_no_semi s (fun c hc => (hclean c hc).1), htrim]
  unfold splitDecls
  rw [splitSemiQ_single s.data (by
    intro c hc
    exact hclean c hc)]
  simp only [List.map_cons, List.map_nil, strEta, htrim]
  show List.mapM parseDeclSeg [s] = _
  rw [show List.mapM parseDeclSeg [s] =
      (parseDeclSeg s).bind (fun d => some [d]) from by
    cases hps : parseDeclSeg s <;> simp [List.mapM, List.mapM.loop, hps]]
  unfold parseDeclSeg
  simp only []
  rw [himp]
  simp only [Bool.false_eq_true, if_false, reduceIte]
  cases hsp : jsSplitChar ':' s with
  | nil => exact absurd (congrArg List.length hsp) (by simp [jsSplitChar, splitCharList_ne_nil])
  | cons p rest => simp [hsp]

/-- Witness for C10: `background: url(http://x)` parses to a declaration
whose value has the in-value colon replaced by a comma. -/
theorem C10_parse_colon_comma_witness :
    jsTrim "background: url(http://x)" = "background: url(http://x)" ∧
    parseDecl "background: url(http://x)" =
      some [⟨"background", "url(http,//x)", false, "url(http,//x)"⟩] := by
  refine ⟨by decide, ?_⟩
  have h := C10_parse_colon_comma.1 "background: url(http://x)"
    (by decide) (by decide) (by decide)
  rw [h]
  decide

/-! ## C2, C6, C8: evaluations of the code at the failing inputs -/

/-- C2: the named/hex forms of red all normalize to `#ff0000ff`, but
`rgb(255,0,0)` does not — the guard `if (!r || !g || !b) return null` in
`hexFromColorFunction` treats the zero green and blue channels as a parse
failure, so the value is returned unchanged. A zero-free channel triple
(`rgb(255,1,1)`) does convert, isolating the zero-channel guard as the
cause. -/
theorem C2_normalize_color_equivalence_bug :
    normalizeColor "red" = "#ff0000ff" ∧
    normalizeColor "#f00" = "#ff0000ff" ∧
    normalizeColor "#ff0000" = "#ff0000ff" ∧
    normalizeColor "rgb(255,0,0)" = "rgb(255,0,0)" ∧
    normalizeColor "rgb(255,0,0)" ≠ "#ff0000ff" ∧
    normalizeColor "rgb(255,1,1)" = "#ff0101ff" := by decide

/-- C6: declaration normalization lowercases `content` and `url(` values —
`normalizeColor` lowercases every value it returns, so the
`prop !== "content" && !value.startsWith("url(")` guard never preserves
case: `content: ABC` normalizes to value `abc` and a `URL(X)` value to
`url(x)`. -/
theorem C6_content_case_fold_bug :
    (normalizeDecl ⟨"content", "ABC", false⟩).value = "abc" ∧
    (normalizeDecl ⟨"a", "URL(X)", false⟩).value = "url(x)" ∧
    ("abc" : String) ≠ "ABC" := by decide

/-- C8: normalization is not idempotent — the leading-zero regex
`/0(\.[0-9])/g` also fires on the non-leading zero of `100.5`, so one
normalization yields `10.5px` and a second yields `1.5px`. -/
theorem C8_normalize_idempotence_bug :
    (normalizeDecl ⟨"width", "100.5px", false⟩).value = "10.5px" ∧
    (normalizeDecl ⟨"width", "10.5px", false⟩).value = "1.5px" ∧
    normalizeDecl ⟨"width", (normalizeDecl ⟨"width", "100.5px", false⟩).value, false⟩ ≠
      normalizeDecl ⟨"width", "100.5px", false⟩ := by decide

/-! ## JQ/ℚ refinement lemmas and C7 -/

theorem jqVal_ofInt (n : Int) : jqVal (jqOfInt n) = n := by
  simp [jqVal, jqOfInt]

theorem jqVal_mul (a b : JQ) : jqVal (jqMul a b) = jqVal a * jqVal b := by
  unfold jqVal jqMul
  push_cast
  rw [div_mul_div_comm]

theorem jqLt_iff {a b : JQ} (ha : 0 < a.d) (hb : 0 < b.d) :
    jqLt a b = true ↔ jqVal a < jqVal b := by
  unfold jqLt jqVal
  rw [decide_eq_true_iff]
  rw [div_lt_div_iff₀ (by exact_mod_cast ha) (by exact_mod_cast hb)]
  constructor <;> intro h <;> exact_mod_cast h

theorem jqFloor_eq {a : JQ} (ha : 0 < a.d) : jqFloor a = ⌊jqVal a⌋ := by
  unfold jqFloor jqVal
  rw [Int.fdiv_eq_ediv _ (le_of_lt ha)]
  obtain ⟨d, hd⟩ : ∃ d : ℕ, a.d = (d : ℤ) :=
    ⟨a.d.toNat, (Int.toNat_of_nonneg (le_of_lt ha)).symm⟩
  rw [hd, show (((d : ℤ)) : ℚ) = (d : ℚ) from by push_cast; ring]
  exact (Rat.floor_intCast_div_natCast _ _).symm

theorem alphaToHex_eq_floor_clamp {q : JQ} (hd : 0 < q.d) :
    alphaToHex (.val q) = jsHexPad2 (Int.toNat ⌊255 * max 0 (min 1 (jqVal q))⌋) := by
  have h1d : (0 : Int) < (jqOfInt 1).d := by simp [jqOfInt]
  have h0d : (0 : Int) < (jqOfInt 0).d := by simp [jqOfInt]
  unfold alphaToHex
  simp only []
  by_cases h1 : jqLt (jqOfInt 1) q = true
  · have hv1 : (1 : ℚ) < jqVal q := by
      have := (jqLt_iff h1d hd).mp h1
      simpa [jqVal_ofInt] using this
    rw [if_pos h1, if_neg (by decide)]
    rw [min_eq_left hv1.le, max_eq_right (by norm_num : (0 : ℚ) ≤ 1)]
    rw [show (255 : ℚ) * 1 = ((255 : Int) : ℚ) from by norm_num, Int.floor_intCast]
    rfl
  · rw [if_neg h1]
    have hv1 : jqVal q ≤ 1 := by
      by_contra hc
      exact h1 ((jqLt_iff h1d hd).mpr (by simpa [jqVal_ofInt] using lt_of_not_le hc))
    by_cases h2 : jqLt q (jqOfInt 0) = true
    · have hv2 : jqVal q < 0 := by
        have := (jqLt_iff hd h0d).mp h2
        simpa [jqVal_ofInt] using this
      rw [if_pos h2]
      rw [min_eq_right (by linarith), max_eq_left (by linarith)]
      rw [show (255 : ℚ) * 0 = ((0 : Int) : ℚ) from by norm_num, Int.floor_intCast]
      rfl
    · have hv2 : (0 : ℚ) ≤ jqVal q := by
        by_contra hc
        exact h2 ((jqLt_iff hd h0d).mpr (by simpa [jqVal_ofInt] using lt_of_not_le hc))
      rw [if_neg h2]
      rw [min_eq_right hv1, max_eq_right hv2]
      have hmd : (0 : Int) < (jqMul q (jqOfInt 255)).d := by
        simpa [jqMul, jqOfInt] using hd
      rw [jqFloor_eq hmd, jqVal_mul, jqVal_ofInt]
      rw [mul_comm (jqVal q) ((255 : Int) : ℚ)]
      norm_num

theorem floorClamp_lt_256 (v : ℚ) : Int.toNat ⌊255 * max 0 (min 1 v)⌋ < 256 := by
  have hle : 255 * max 0 (min 1 v) ≤ 255 := by
    have : max 0 (min 1 v) ≤ 1 := max_le (by norm_num) (min_le_left _ _)
    nlinarith
  have h1 : ⌊(255 : ℚ) * max 0 (min 1 v)⌋ ≤ 255 := by
    have := Int.floor_le_floor hle
    rwa [show ((255 : ℚ)) = ((255 : Int) : ℚ) from by norm_num, Int.floor_intCast] at this
  omega

theorem normalizeHexColor_nine (a b c d e f g h i : Char) :
    normalizeHexColor ⟨[a, b, c, d, e, f, g, h, i]⟩ = ⟨[a, b, c, d, e, f, g, h, i]⟩ := rfl

theorem normalizeHexColor_seven (a b c d e f g : Char) :
    normalizeHexColor ⟨[a, b, c, d, e, f, g]⟩ = ⟨[a, b, c, d, e, f, g] ++ ['f', 'f']⟩ := rfl

theorem rgb_assemble (l6 t : List Char) :
    "#" ++ (⟨l6⟩ : String) ++ (⟨t⟩ : String) = ⟨'#' :: (l6 ++ t)⟩ := by
  rw [show ("#" : String) = ⟨['#']⟩ from rfl, strMk_append, strMk_append]
  simp

theorem rgbHexLower_form (r g b : JQ) :
    rgbHexLower r g b =
      ⟨hex2 (roundByte r) ++ hex2 (roundByte g) ++ hex2 (roundByte b)⟩ := rfl

theorem hslHexLower_form (h s l : Option JQ) :
    hslHexLower h s l =
      ⟨hex2 (roundMaskO (hslRgbModel h s l).1) ++
        hex2 (roundMaskO (hslRgbModel h s l).2.1) ++
        hex2 (roundMaskO (hslRgbModel h s l).2.2)⟩ := rfl

/-- C7 (amended): for `rgb()/rgba()` (with all channels numeric and
non-zero, as the code requires) and `hsl()/hsla()` function nodes, an
explicit numeric alpha component yields the canonical color whose last two
hex digits are `floor(clamp(alpha,0,1)*255)` — floor, not round — and an
absent alpha yields `ff`. -/
theorem C7_alpha_floor_amended :
    (∀ (name : String) (args : VNodes) (closed : Bool) (rs gs bs as' : String)
      (rq gq bq aq : JQ),
      (name == "rgb" || name == "rgba") = true →
      vnWords args = [rs, gs, bs, as'] →
      jsNumber rs = some rq → jqIsZero rq = false →
      jsNumber gs = some gq → jqIsZero gq = false →
      jsNumber bs = some bq → jqIsZero bq = false →
      jsNumber as' = some aq → 0 < aq.d →
      hexFromColorFunction (.vfunc name args closed) =
        some ("#" ++ rgbHexLower rq gq bq ++
          jsHexPad2 (Int.toNat ⌊255 * max 0 (min 1 (jqVal aq))⌋))) ∧
    (∀ (name : String) (args : VNodes) (closed : Bool) (rs gs bs : String)
      (rq gq bq : JQ),
      (name == "rgb" || name == "rgba") = true →
      vnWords args = [rs, gs, bs] →
      jsNumber rs = some rq → jqIsZero rq = false →
      jsNumber gs = some gq → jqIsZero gq = false →
      jsNumber bs = some bq → jqIsZero bq = false →
      hexFromColorFunction (.vfunc name args closed) =
        some ("#" ++ rgbHexLower rq gq bq ++ "ff")) ∧
    (∀ (name : String) (args : VNodes) (closed : Bool) (hs ss ls as' : String)
      (aq : JQ),
      (name == "rgb" || name == "rgba") = false →
      (name == "hsl" || name == "hsla") = true →
      vnWords args = [hs, ss, ls, as'] →
      hs ≠ "" → ss ≠ "" → ls ≠ "" →
      jsNumber as' = some aq → 0 < aq.d →
      hexFromColorFunction (.vfunc name args closed) =
        some ("#" ++ hslHexLower (jsNumber hs) (jsNumber ⟨removeFirstPct ss.data⟩)
            (jsNumber ⟨removeFirstPct ls.data⟩) ++
          jsHexPad2 (Int.toNat ⌊255 * max 0 (min 1 (jqVal aq))⌋))) := by
  refine ⟨?_, ?_, ?_⟩
  · intro name args closed rs gs bs as' rq gq bq aq hname hwords hr hr0 hg hg0 hb hb0 ha hda
    simp only [hexFromColorFunction]
    rw [if_pos hname]
    rw [hwords]
    simp only [List.map_cons, List.map_nil, List.getD_cons_zero, List.getD_cons_succ]
    simp only [numOf, hr, hg, hb, ha]
    rw [if_pos (by simp [hr0, hg0, hb0])]
    rw [alphaToHex_eq_floor_clamp hda]
    rw [jsHexPad2_eq_hex2 (floorClamp_lt_256 (jqVal aq))]
    rw [rgbHexLower_form, rgb_assemble]
    rfl
  · intro name args closed rs gs bs rq gq bq hname hwords hr hr0 hg hg0 hb hb0
    simp only [hexFromColorFunction]
    rw [if_pos hname]
    rw [hwords]
    simp only [List.map_cons, List.map_nil, List.getD_cons_zero, List.getD_cons_succ]
    simp only [numOf, hr, hg, hb]
    rw [if_pos (by simp [hr0, hg0, hb0])]
    show some (normalizeHexColor ("#" ++ rgbHexLower rq gq bq ++ alphaToHex .undef)) = _
    rw [show alphaToHex .undef = "" from rfl, strAppend_empty]
    rw [show ("ff" : String) = ⟨['f', 'f']⟩ from rfl]
    rw [rgbHexLower_form, rgb_assemble]
    rw [show ("#" : String) = ⟨['#']⟩ from rfl, strMk_append]
    rfl
  · intro name args closed hs ss ls as' aq hnotrgb hname hwords hhs hss hls ha hda
    simp only [hexFromColorFunction]
    rw [if_neg (by simp [hnotrgb]), if_pos hname]
    rw [hwords]
    simp only [List.get?_cons_zero, List.get?_cons_succ]
    rw [if_pos ⟨hhs, hss, hls⟩]
    simp only [numOf, ha]
    rw [alphaToHex_eq_floor_clamp hda]
    rw [jsHexPad2_eq_hex2 (floorClamp_lt_256 (jqVal aq))]
    rw [hslHexLower_form, rgb_assemble]
    rfl

def rgba05Node : VNode :=
  .vfunc "rgba"
    (.cons (.word "255") (.cons (.vdiv ",") (.cons (.word "1") (.cons (.vdiv ",")
      (.cons (.word "1") (.cons (.vdiv ",") (.cons (.word "0.5") .nil))))))) true

/-- Counterexample for C7: converting `rgba(255,1,1,0.5)` yields the
canonical color `#ff01017f`, whose alpha pair is `7f` =
`floor(0.5*255) = 127`; the claim's formula `round(clamp(0.5,0,1)*255) =
round(127.5) = 128` would give `80` instead — the code floors, it does not
round. -/
theorem C7_alpha_round_counterexample :
    hexFromColorFunction rgba05Node = some "#ff01017f" ∧
    jsDropN "#ff01017f" 7 = "7f" ∧
    jsNumber "0.5" = some ⟨5, 10⟩ ∧
    jqVal ⟨5, 10⟩ = 1 / 2 ∧
    (⌊(255 : ℚ) * (1 / 2) + 1 / 2⌋ = 128) ∧
    jsHexPad2 (Int.toNat 128) = "80" ∧
    ("7f" : String) ≠ "80" := by
  refine ⟨by decide, by decide, by decide, by norm_num [jqVal], ?_, by decide, by decide⟩
  rw [show (255 : ℚ) * (1 / 2) + 1 / 2 = ((128 : Int) : ℚ) from by norm_num]
  exact Int.floor_intCast 128

/-- Witness for C7 (amended): `rgba(255,1,1,0.5)` has alpha hex pair
`floor(clamp(0.5,0,1)*255) = 127 = 0x7f`. -/
theorem C7_alpha_floor_amended_witness :
    jsNumber "0.5" = some ⟨5, 10⟩ ∧
    hexFromColorFunction rgba05Node = some "#ff01017f" := by
  refine ⟨by decide, ?_⟩
  have h := C7_alpha_floor_amended.1 "rgba"
    (.cons (.word "255") (.cons (.vdiv ",") (.cons (.word "1") (.cons (.vdiv ",")
      (.cons (.word "1") (.cons (.vdiv ",") (.cons (.word "0.5") .nil))))))) true
    "255" "1" "1" "0.5" ⟨255, 1⟩ ⟨1, 1⟩ ⟨1, 1⟩ ⟨5, 10⟩
    (by decide) (by decide) (by decide) (by decide) (by decide) (by decide)
    (by decide) (by decide) (by decide) (by norm_num)
  have hclamp : max 0 (min 1 (jqVal ⟨5, 10⟩)) = 1 / 2 := by
    norm_num [jqVal]
  rw [hclamp] at h
  have hfl : ⌊(255 : ℚ) * (1 / 2)⌋ = 127 := by
    rw [show (255 : ℚ) * (1 / 2) = 255 / 2 from by norm_num]
    rw [show (255 : ℚ) / 2 = ((255 : Int) : ℚ) / ((2 : ℕ) : ℚ) from by norm_num]
    rw [Rat.floor_intCast_div_natCast]
    rfl
  rw [hfl] at h
  show hexFromColorFunction rgba05Node = some "#ff01017f"
  rw [show rgba05Node = VNode.vfunc "rgba"
    (.cons (.word "255") (.cons (.vdiv ",") (.cons (.word "1") (.cons (.vdiv ",")
      (.cons (.word "1") (.cons (.vdiv ",") (.cons (.word "0.5") .nil))))))) true from rfl]
  rw [h]
  decide
